import Mathlib

/-!
Shallow embedding of the gzip stream layer of this repository
(gzlib.c, gzread.c, gzwrite.c, gzclose.c).

Modelling conventions:
* Machine integers: C `unsigned` values are `Nat` with explicit `% 2^32`
  where wraparound matters; `z_off64_t` and zlib return codes are `Int`.
* Buffers and pointers: a (pointer, length) window into a buffer is the
  list of bytes it designates plus the offset of the pointer from the
  buffer base where that offset is itself inspected by the code.
* The descriptor is a byte list with a cursor and an event log; `read`
  returns what is available (so the retry loop of gz_load terminates after
  at most one short read), `write` always writes fully, and neither can
  fail, so the `Z_ERRNO` branches of gz_load/gz_comp are unreachable in
  the model and the platform error strings never arise.
* `malloc` succeeds in the model; the out-of-memory branches of
  gz_look/gz_init are not modelled (no claim is about allocation failure),
  but gz_error's own handling of `Z_MEM_ERROR` is modelled faithfully.
* The DEFLATE codec engine is, as the spec states, an external
  collaborator outside this repository. Modelled from the spec: the
  init/step/reset/end contract of section 6 is instantiated by a concrete
  invertible engine (`dflate`/`iflate`) whose members are
  `31, 139, 8-byte little-endian length, payload`, which consumes and
  produces as much as fits in the supplied windows without blocking and
  signals `Z_STREAM_END` at the end of one member.
* Loops are modelled by structural recursion on a fuel argument; `none`
  means the fuel ran out, and the theorems supply sufficient fuel.
-/

namespace GzModel

/-- zlib return codes (zlib.h). -/
def Z_OK : Int := 0

def Z_STREAM_END : Int := 1

def Z_NEED_DICT : Int := 2

def Z_ERRNO : Int := -1

def Z_STREAM_ERROR : Int := -2

def Z_DATA_ERROR : Int := -3

def Z_MEM_ERROR : Int := -4

def Z_BUF_ERROR : Int := -5

/-- zlib flush values (zlib.h). -/
def Z_NO_FLUSH : Int := 0

def Z_FINISH : Int := 4

def Z_BLOCK : Int := 5

def SEEK_SET : Nat := 0

def SEEK_CUR : Nat := 1

def INT_MAX : Nat := 2 ^ 31 - 1

def UINT_MAX : Nat := 2 ^ 32 - 1

/-- Default `want` buffer size (GZBUFSIZE in gzguts.h, absent from src/). -/
def GZBUFSIZE : Nat := 8192

/-- `mode` field: GZ_NONE / GZ_READ / GZ_WRITE (GZ_APPEND is rewritten to
GZ_WRITE by gz_open before any other operation sees it). -/
inductive GzMode where
  | none
  | read
  | write
  deriving Repr, DecidableEq

/-- `how` field of the reader: LOOK / COPY / GZIP. -/
inductive GzHow where
  | look
  | copy
  | gzip
  deriving Repr, DecidableEq

/-- State of the modelled deflate engine: absorbed input not yet encoded,
the encoded byte queue awaiting emission, and whether the finish phase has
begun. -/
structure DefSt where
  acc : List Nat
  outq : List Nat
  fin : Bool
  deriving Repr, DecidableEq

/-- State of the modelled inflate engine: member prefix bytes consumed so
far (2 magic + 8 length bytes) and, once the prefix is complete, the
number of payload bytes still to emit. -/
structure InfSt where
  hdr : List Nat
  rem : Option Nat
  deriving Repr, DecidableEq

/-- Descriptor events, recorded so that theorems can state that a call
performed no descriptor I/O. -/
inductive IOEv where
  | rd (req : Nat) (got : List Nat)
  | wr (bytes : List Nat)
  | sk (offset : Int) (whence : Nat)
  deriving Repr, DecidableEq

/-- The file descriptor: contents, cursor, event log. -/
structure FileDesc where
  content : List Nat
  fpos : Int
  log : List IOEv
  deriving Repr, DecidableEq

/-- read(fd, buf, n): returns the available bytes at the cursor, at most n. -/
def fdRead (fd : FileDesc) (n : Nat) : FileDesc × List Nat :=
  let got := if 0 ≤ fd.fpos then (fd.content.drop fd.fpos.toNat).take n else []
  (⟨fd.content, fd.fpos + got.length, fd.log ++ [IOEv.rd n got]⟩, got)

/-- write(fd, buf, n): appends (the writer never seeks the descriptor in the
modelled paths) and always succeeds in full. -/
def fdWrite (fd : FileDesc) (bytes : List Nat) : FileDesc :=
  ⟨fd.content ++ bytes, fd.fpos + bytes.length, fd.log ++ [IOEv.wr bytes]⟩

/-- lseek(fd, offset, whence): fails with -1 on a negative target. -/
def fdSeek (fd : FileDesc) (offset : Int) (whence : Nat) : FileDesc × Int :=
  let tgt := if whence = SEEK_SET then offset else fd.fpos + offset
  if tgt < 0 then (⟨fd.content, fd.fpos, fd.log ++ [IOEv.sk offset whence]⟩, -1)
  else (⟨fd.content, tgt, fd.log ++ [IOEv.sk offset whence]⟩, tgt)

/-- The gz_state handle. The struct itself lives in gzguts.h (absent from
src/); its fields are modelled from their uses in the .c files and from the
spec's data model. `outWin` is the `x.next`/`x.have` window into the
read-side output buffer (`x.have = outWin.length`), `outStart` the offset
of `x.next` from the buffer base, `strmIn` the `next_in`/`avail_in` window
(`avail_in = strmIn.length`), `inStart` the offset of `next_in` from the
input buffer base, `outPend` the writer's `x.next ..< next_out` window of
compressed bytes not yet written to the descriptor, and `nextOut` the
offset of `next_out` from the output buffer base (so
`avail_out = size - nextOut`). -/
structure GzSt where
  mode : GzMode
  how : GzHow
  direct : Bool
  want : Nat
  size : Nat
  level : Int
  strategy : Int
  eof : Bool
  past : Bool
  seek : Bool
  skip : Int
  err : Int
  msg : Option String
  path : String
  pos : Int
  outStart : Nat
  outWin : List Nat
  strmIn : List Nat
  inStart : Nat
  outPend : List Nat
  nextOut : Nat
  reset : Bool
  dst : DefSt
  ist : InfSt
  start : Int
  fd : FileDesc
  deriving Repr, DecidableEq

/-- Message-memory events of gz_error, recorded so that theorems can state
when the previous message allocation is freed. -/
inductive MemEv where
  | freedMsg
  | allocMsg (m : String)
  deriving Repr, DecidableEq

/-- gz_error (gzlib.c): free any previous message unless the previous code
was Z_MEM_ERROR; a fatal code zeroes `x.have`; a non-null message for a
code other than Z_MEM_ERROR is stored as "path: msg" (the allocation
succeeds in the model, so the convert-to-out-of-memory branch is dead). -/
def gzError (s : GzSt) (err : Int) (msg : Option String) : GzSt × List MemEv :=
  let p1 : GzSt × List MemEv :=
    if s.msg.isSome then
      if s.err ≠ Z_MEM_ERROR then ({ s with msg := none }, [MemEv.freedMsg])
      else ({ s with msg := none }, [])
    else (s, [])
  let s1 := p1.1
  let s2 := if err ≠ Z_OK ∧ err ≠ Z_BUF_ERROR then { s1 with outWin := [] } else s1
  let s3 := { s2 with err := err }
  match msg with
  | Option.none => (s3, p1.2)
  | Option.some m =>
    if err = Z_MEM_ERROR then (s3, p1.2)
    else
      let full := s3.path ++ ": " ++ m
      ({ s3 with msg := some full }, p1.2 ++ [MemEv.allocMsg full])

/-- gz_error, discarding the memory events. -/
def gzErr (s : GzSt) (err : Int) (msg : Option String) : GzSt :=
  (gzError s err msg).1

/-- gzerror (gzlib.c): returns (err, message); `none` models the NULL
return on an invalid handle. Z_MEM_ERROR reports the fixed constant
string, a missing message reports the empty string. -/
def gzerror (s : GzSt) : Option (Int × String) :=
  if s.mode ≠ GzMode.read ∧ s.mode ≠ GzMode.write then none
  else
    some (s.err,
      if s.err = Z_MEM_ERROR then "fuera de memoria"
      else match s.msg with
        | Option.none => ""
        | Option.some m => m)

/-- gz_reset (gzlib.c). -/
def gzReset (s : GzSt) : GzSt :=
  let s := { s with outWin := [] }
  let s :=
    if s.mode = GzMode.read then { s with eof := false, past := false, how := GzHow.look }
    else { s with reset := false }
  let s := { s with seek := false }
  let s := gzErr s Z_OK none
  { s with pos := 0, strmIn := [] }

/-- gz_open (gzlib.c), specialised to a mode string of exactly "r" or "w"
with the default level/strategy: descriptor open succeeds, the path is
saved, and the state is reset. Read mode starts with `direct = true`. -/
def gzOpen (mode : GzMode) (path : String) (content : List Nat) : GzSt :=
  gzReset
    { mode := mode, how := GzHow.look, direct := (mode = GzMode.read),
      want := GZBUFSIZE, size := 0, level := -1, strategy := 0,
      eof := false, past := false, seek := false, skip := 0,
      err := Z_OK, msg := none, path := path, pos := 0,
      outStart := 0, outWin := [], strmIn := [], inStart := 0,
      outPend := [], nextOut := 0, reset := false,
      dst := ⟨[], [], false⟩, ist := ⟨[], none⟩, start := 0,
      fd := ⟨content, 0, []⟩ }

/-- gzbuffer (gzlib.c). `size` is a C unsigned, so the doubling in
`(size << 1) < size` is computed modulo 2^32. -/
def gzbuffer (s : GzSt) (size : Nat) : GzSt × Int :=
  if s.mode ≠ GzMode.read ∧ s.mode ≠ GzMode.write then (s, -1)
  else if s.size ≠ 0 then (s, -1)
  else if (size * 2) % 2 ^ 32 < size then (s, -1)
  else
    let size := if size < 8 then 8 else size
    ({ s with want := size }, 0)

/-- gzrewind (gzlib.c). -/
def gzrewind (s : GzSt) : GzSt × Int :=
  if s.mode ≠ GzMode.read ∨ (s.err ≠ Z_OK ∧ s.err ≠ Z_BUF_ERROR) then (s, -1)
  else
    let p := fdSeek s.fd s.start SEEK_SET
    if p.2 = -1 then ({ s with fd := p.1 }, -1)
    else (gzReset { s with fd := p.1 }, 0)

/-- Trailing part of gzseek64 (gzlib.c): consume buffered output toward the
(now SEEK_CUR-normalised, non-negative) offset, then record any non-zero
residual as the pending seek. `GT_OFF` is identically false with 64-bit
offsets. -/
def gzseekSkip (s : GzSt) (offset : Int) : GzSt × Int :=
  let p :=
    if s.mode = GzMode.read then
      let n := if (s.outWin.length : Int) > offset then offset.toNat else s.outWin.length
      ({ s with outWin := s.outWin.drop n, outStart := s.outStart + n,
                pos := s.pos + n }, offset - n)
    else (s, offset)
  let s := p.1
  let offset := p.2
  if offset ≠ 0 then ({ s with seek := true, skip := offset }, s.pos + offset)
  else (s, s.pos + offset)

/-- Body of gzseek64 (gzlib.c) after the offset has been normalised to a
SEEK_CUR delta and the pending-seek flag cleared: the raw read fast path,
the rewind-and-reskip path for a backward read seek (failing for write
mode or a target before byte 0), and the buffered-consume/pending-record
tail. -/
def seekCore (s : GzSt) (offset : Int) : GzSt × Int :=
  if s.mode = GzMode.read ∧ s.how = GzHow.copy ∧ 0 ≤ s.pos + offset then
    let p := fdSeek s.fd (offset - (s.outWin.length : Int)) SEEK_CUR
    let s := { s with fd := p.1 }
    if p.2 = -1 then (s, -1)
    else
      let s := { s with outWin := [], eof := false, past := false, seek := false }
      let s := gzErr s Z_OK none
      let s := { s with strmIn := [], pos := s.pos + offset }
      (s, s.pos)
  else if offset < 0 then
    if s.mode ≠ GzMode.read then (s, -1)
    else
      let offset := offset + s.pos
      if offset < 0 then (s, -1)
      else
        let p := gzrewind s
        if p.2 = -1 then (p.1, -1)
        else gzseekSkip p.1 offset
  else gzseekSkip s offset

/-- gzseek64 (gzlib.c): guards, SEEK_CUR normalisation (folding a pending
deferred skip into a Current offset), then the core. -/
def gzseek64 (s : GzSt) (offset : Int) (whence : Nat) : GzSt × Int :=
  if s.mode ≠ GzMode.read ∧ s.mode ≠ GzMode.write then (s, -1)
  else if s.err ≠ Z_OK ∧ s.err ≠ Z_BUF_ERROR then (s, -1)
  else if whence ≠ SEEK_SET ∧ whence ≠ SEEK_CUR then (s, -1)
  else
    let offset :=
      if whence = SEEK_SET then offset - s.pos
      else if s.seek then offset + s.skip
      else offset
    seekCore { s with seek := false } offset

/-- gztell64 (gzlib.c). -/
def gztell64 (s : GzSt) : Int :=
  if s.mode ≠ GzMode.read ∧ s.mode ≠ GzMode.write then -1
  else s.pos + (if s.seek then s.skip else 0)

/-! ## The modelled codec engine (external collaborator, spec section 6) -/

/-- Little-endian bytes of a number, `k` bytes wide. -/
def leBytes (k n : Nat) : List Nat :=
  match k with
  | 0 => []
  | k + 1 => n % 256 :: leBytes k (n / 256)

/-- Value of a little-endian byte list. -/
def leVal (bs : List Nat) : Nat :=
  match bs with
  | [] => 0
  | b :: bs => b % 256 + 256 * leVal bs

/-- One member produced by the modelled engine: the gzip magic bytes, an
8-byte little-endian payload length, then the payload verbatim. -/
def specEncode (S : List Nat) : List Nat :=
  31 :: 139 :: (leBytes 8 S.length ++ S)

/-- deflate(strm, flush) of the modelled engine: always consumes the whole
input window; with Z_NO_FLUSH it only absorbs; with Z_FINISH it emits the
encoded member into the output window, as much as fits, and reports
Z_STREAM_END once the member is complete.
Returns (state, consumed, emitted, return code). -/
def dflate (d : DefSt) (input : List Nat) (availOut : Nat) (flush : Int) :
    DefSt × Nat × List Nat × Int :=
  if flush = Z_FINISH then
    let q := if d.fin then d.outq else specEncode (d.acc ++ input)
    (⟨[], q.drop availOut, true⟩, input.length, q.take availOut,
     if q.length ≤ availOut then Z_STREAM_END else Z_OK)
  else
    (⟨d.acc ++ input, d.outq, d.fin⟩, input.length, [], Z_OK)

/-- deflateReset of the modelled engine. -/
def dReset : DefSt := ⟨[], [], false⟩

/-- inflate(strm, Z_NO_FLUSH) of the modelled engine: consumes the member
prefix, then emits payload bytes as far as both the input window and the
output window allow; reports Z_STREAM_END when the member is complete and
Z_DATA_ERROR on a bad magic. Returns (state, consumed, emitted, return
code). -/
def iflate (i : InfSt) (input : List Nat) (availOut : Nat) :
    InfSt × Nat × List Nat × Int :=
  let need := 10 - i.hdr.length
  let h := input.take need
  let got := i.hdr ++ h
  let rest := input.drop need
  if got.length < 10 then (⟨got, i.rem⟩, h.length, [], Z_OK)
  else if ¬(got.getD 0 0 = 31 ∧ got.getD 1 0 = 139) then
    (⟨got, i.rem⟩, h.length, [], Z_DATA_ERROR)
  else
    let rem := match i.rem with
      | Option.none => leVal (got.drop 2)
      | Option.some r => r
    let k := min availOut (min rest.length rem)
    (⟨got, some (rem - k)⟩, h.length + k, rest.take k,
     if rem - k = 0 then Z_STREAM_END else Z_OK)

/-- inflateReset / inflateInit2 of the modelled engine. -/
def iReset : InfSt := ⟨[], none⟩

/-! ## Reader pipeline (gzread.c) -/

/-- gz_load (gzread.c): loop on read() until the request is filled or
read() returns 0, which sets `eof`. The descriptor model returns all
available bytes at once, so the loop resolves to one short-read check; a
request of 0 performs a zero-byte read that reports 0 and sets `eof`,
as the C loop body does. The read-error branch is unreachable (the
descriptor model cannot fail). Returns the loaded bytes; the caller places
them. -/
def gzLoad (s : GzSt) (len : Nat) : GzSt × List Nat :=
  let p := fdRead s.fd len
  let s := { s with fd := p.1 }
  let s := if p.2.length < len ∨ len = 0 then { s with eof := true } else s
  (s, p.2)

/-- gz_avail (gzread.c): refill the input window from the descriptor
unless a fatal error is pending or `eof` was already seen. The compaction
of unconsumed input to the buffer start is the identity on the window
model. -/
def gzAvail (s : GzSt) : GzSt × Int :=
  if s.err ≠ Z_OK ∧ s.err ≠ Z_BUF_ERROR then (s, -1)
  else if s.eof = false then
    let p := gzLoad s (s.size - s.strmIn.length)
    ({ p.1 with strmIn := p.1.strmIn ++ p.2 }, 0)
  else (s, 0)

/-- Magic dispatch of gz_look (gzread.c), after the input window holds
whatever could be obtained: gzip magic enters GZIP (decompression),
otherwise trailing garbage after a decoded member discards input and ends,
otherwise raw copy moves the buffered input to the output window. -/
def gzLookMagic (s : GzSt) : GzSt × Int :=
  if 1 < s.strmIn.length ∧ s.strmIn.getD 0 0 = 31 ∧ s.strmIn.getD 1 0 = 139 then
    ({ s with ist := iReset, how := GzHow.gzip, direct := false }, 0)
  else if s.direct = false then
    ({ s with strmIn := [], eof := true, outWin := [] }, 0)
  else
    ({ s with outStart := 0, outWin := s.strmIn, strmIn := [],
              how := GzHow.copy, direct := true }, 0)

/-- gz_look (gzread.c): on first use allocate the input buffer (`want`),
the double-size output buffer and the inflate state (allocation succeeds
in the model); ensure at least the two magic bytes are available if
possible, returning 0 with `how` unchanged when no input is available at
all; then dispatch on the magic. -/
def gzLook (s : GzSt) : GzSt × Int :=
  let s := if s.size = 0 then { s with size := s.want, strmIn := [], ist := iReset } else s
  if s.strmIn.length < 2 then
    let p := gzAvail s
    if p.2 = -1 then (p.1, -1)
    else if p.1.strmIn.length = 0 then (p.1, 0)
    else gzLookMagic p.1
  else gzLookMagic s

/-- Result of gz_decomp's loop: `fail` models a -1 return with the error
already set, `done` models falling out of the loop with the last inflate
return code. `produced` is everything written to the destination window. -/
inductive DecompRes where
  | fail (s : GzSt) (produced : List Nat)
  | done (s : GzSt) (produced : List Nat) (availOut : Nat) (ret : Int)
  deriving Repr, DecidableEq

/-- The do-while loop of gz_decomp (gzread.c): refill the input window
when empty (an empty refill is the transient "unexpected end of file"
Z_BUF_ERROR break), run inflate, surface its fatal errors, and continue
until the output window is full or the member ended. -/
def gzDecompLoop : Nat → GzSt → Nat → List Nat → Int → Option DecompRes
  | 0, _, _, _, _ => none
  | fuel + 1, s, availOut, acc, ret =>
    let p := if s.strmIn.length = 0 then gzAvail s else (s, 0)
    if p.2 = -1 then some (DecompRes.fail p.1 acc)
    else
      let s := p.1
      if s.strmIn.length = 0 then
        some (DecompRes.done
          (gzErr s Z_BUF_ERROR (some "fin de archivo inesperado")) acc availOut ret)
      else
        let q := iflate s.ist s.strmIn availOut
        let iret := q.2.2.2
        if iret = Z_STREAM_ERROR ∨ iret = Z_NEED_DICT then
          some (DecompRes.fail
            (gzErr s Z_STREAM_ERROR (some "error interno: flujo de inflacion corrupto")) acc)
        else if iret = Z_MEM_ERROR then
          some (DecompRes.fail (gzErr s Z_MEM_ERROR (some "sin memoria")) acc)
        else if iret = Z_DATA_ERROR then
          some (DecompRes.fail
            (gzErr s Z_DATA_ERROR (some "error de datos comprimidos")) acc)
        else
          let s := { s with ist := q.1, strmIn := s.strmIn.drop q.2.1 }
          let availOut' := availOut - q.2.2.1.length
          let acc' := acc ++ q.2.2.1
          if availOut' ≠ 0 ∧ iret ≠ Z_STREAM_END then
            gzDecompLoop fuel s availOut' acc' iret
          else
            some (DecompRes.done s acc' availOut' iret)

/-- gz_decomp (gzread.c): run the loop with the destination window size,
then publish the produced bytes as the `x.next`/`x.have` window (offset 0
of the destination) and return to LOOK exactly on a clean Z_STREAM_END.
Returns (state, produced, return code, last inflate code). -/
def gzDecomp (fuel : Nat) (s : GzSt) (availOut : Nat) :
    Option (GzSt × List Nat × Int × Int) :=
  match gzDecompLoop fuel s availOut [] Z_OK with
  | Option.none => none
  | Option.some (DecompRes.fail s acc) => some (s, acc, -1, Z_OK)
  | Option.some (DecompRes.done s acc _ ret) =>
    let s := { s with outWin := acc, outStart := 0 }
    let s := if ret = Z_STREAM_END then { s with how := GzHow.look } else s
    some (s, acc, 0, ret)

/-- gz_fetch (gzread.c): dispatch on `how`, looping while no output was
produced but more input may arrive. -/
def gzFetch : Nat → GzSt → Option (GzSt × Int)
  | 0, _ => none
  | fuel + 1, s =>
    let cont : GzSt → Option (GzSt × Int) := fun s =>
      if s.outWin.length = 0 ∧ (¬s.eof ∨ s.strmIn.length ≠ 0) then gzFetch fuel s
      else some (s, 0)
    match s.how with
    | GzHow.look =>
      let p := gzLook s
      if p.2 = -1 then some (p.1, -1)
      else if p.1.how = GzHow.look then some (p.1, 0)
      else cont p.1
    | GzHow.copy =>
      let p := gzLoad s (s.size * 2)
      some ({ p.1 with outWin := p.2, outStart := 0 }, 0)
    | GzHow.gzip =>
      match gzDecomp (fuel + 1) s (s.size * 2) with
      | Option.none => none
      | Option.some (s, _, r, _) =>
        if r = -1 then some (s, -1) else cont s

/-- gz_skip (gzread.c): discard `len` logical bytes, draining the buffered
output first and fetching more until EOF. -/
def gzSkip : Nat → GzSt → Int → Option (GzSt × Int)
  | 0, _, _ => none
  | fuel + 1, s, len =>
    if len = 0 then some (s, 0)
    else if s.outWin.length ≠ 0 then
      let n := if (s.outWin.length : Int) > len then len.toNat else s.outWin.length
      gzSkip fuel
        { s with outWin := s.outWin.drop n, outStart := s.outStart + n,
                 pos := s.pos + n } (len - n)
    else if s.eof ∧ s.strmIn.length = 0 then some (s, 0)
    else
      match gzFetch (fuel + 1) s with
      | Option.none => none
      | Option.some (s, r) => if r = -1 then some (s, -1) else gzSkip fuel s len

/-- Result of gz_read: final state, the bytes placed in the caller's
buffer, and the returned count (0 on the error returns, even when bytes
were already copied). -/
structure ReadRes where
  st : GzSt
  bytes : List Nat
  ret : Nat
  deriving Repr, DecidableEq

/-- The do-while loop of gz_read (gzread.c): copy from the buffered output
window; at EOF with nothing buffered set `past` and stop; fetch through
the internal buffer while sniffing or for small requests; otherwise load
or decompress directly into the caller's buffer. -/
def gzReadLoop : Nat → GzSt → Nat → List Nat → Option ReadRes
  | 0, _, _, _ => none
  | fuel + 1, s, len, acc =>
    let n := min UINT_MAX len
    let tail : GzSt → List Nat → Option ReadRes := fun s chunk =>
      let s := { s with pos := s.pos + chunk.length }
      let len' := len - chunk.length
      let acc' := acc ++ chunk
      if len' ≠ 0 then gzReadLoop fuel s len' acc' else some ⟨s, acc', acc'.length⟩
    if s.outWin.length ≠ 0 then
      let k := min n s.outWin.length
      tail { s with outWin := s.outWin.drop k, outStart := s.outStart + k }
        (s.outWin.take k)
    else if s.eof ∧ s.strmIn.length = 0 then
      some ⟨{ s with past := true }, acc, acc.length⟩
    else if s.how = GzHow.look ∨ n < s.size * 2 then
      match gzFetch (fuel + 1) s with
      | Option.none => none
      | Option.some (s, r) =>
        if r = -1 then some ⟨s, acc, 0⟩ else gzReadLoop fuel s len acc
    else if s.how = GzHow.copy then
      let p := gzLoad s n
      tail p.1 p.2
    else
      match gzDecomp (fuel + 1) s n with
      | Option.none => none
      | Option.some (s, produced, r, _) =>
        if r = -1 then some ⟨s, acc, 0⟩
        else tail { s with outWin := [] } produced

/-- gz_read (gzread.c): nothing to do for a zero request, otherwise
materialise a pending seek and run the loop. -/
def gzReadInner (fuel : Nat) (s : GzSt) (len : Nat) : Option ReadRes :=
  if len = 0 then some ⟨s, [], 0⟩
  else if s.seek then
    match gzSkip fuel { s with seek := false } s.skip with
    | Option.none => none
    | Option.some (s, r) =>
      if r = -1 then some ⟨s, [], 0⟩ else gzReadLoop fuel s len []
  else gzReadLoop fuel s len []

/-- gzread (gzread.c): mode/error guard, the request must fit in an int
(`len` is a C unsigned, so `(int)len < 0` is `INT_MAX < len`), then
gz_read; a zero count with a fatal error pending reports -1. -/
def gzread (fuel : Nat) (s : GzSt) (len : Nat) : Option (GzSt × List Nat × Int) :=
  if s.mode ≠ GzMode.read ∨ (s.err ≠ Z_OK ∧ s.err ≠ Z_BUF_ERROR) then some (s, [], -1)
  else if INT_MAX < len then
    some (gzErr s Z_STREAM_ERROR (some "la solicitud no cabe en un int"), [], -1)
  else
    match gzReadInner fuel s len with
    | Option.none => none
    | Option.some res =>
      if res.ret = 0 ∧ res.st.err ≠ Z_OK ∧ res.st.err ≠ Z_BUF_ERROR then
        some (res.st, res.bytes, -1)
      else some (res.st, res.bytes, (res.ret : Int))

/-- gzgetc (gzread.c): serve straight from the output window when
possible, else a one-byte gz_read. -/
def gzgetc (fuel : Nat) (s : GzSt) : Option (GzSt × Int) :=
  if s.mode ≠ GzMode.read ∨ (s.err ≠ Z_OK ∧ s.err ≠ Z_BUF_ERROR) then some (s, -1)
  else if s.outWin.length ≠ 0 then
    some ({ s with outWin := s.outWin.tail, outStart := s.outStart + 1,
                   pos := s.pos + 1 }, (s.outWin.headD 0 : Int))
  else
    match gzReadInner fuel s 1 with
    | Option.none => none
    | Option.some res =>
      if res.ret < 1 then some (res.st, -1)
      else some (res.st, (res.bytes.headD 0 : Int))

/-- Tail of gzungetc (gzread.c) after the guards and the pending seek: the
EOF sentinel fails; an empty window places the byte at the very end of the
double-capacity output buffer; a full window is an error; otherwise slide
the window to the buffer end if the cursor is at the base, then prepend
the byte. Every success decrements `pos` and clears `past`. -/
def gzungetcCore (c : Int) (s : GzSt) : GzSt × Int :=
  if c < 0 then (s, -1)
  else if s.outWin.length = 0 then
    ({ s with outWin := [c.toNat % 256], outStart := s.size * 2 - 1,
              pos := s.pos - 1, past := false }, c)
  else if s.outWin.length = s.size * 2 then
    (gzErr s Z_DATA_ERROR (some "sin espacio para insertar caracteres"), -1)
  else
    let s := if s.outStart = 0 then { s with outStart := s.size * 2 - s.outWin.length }
             else s
    ({ s with outWin := c.toNat % 256 :: s.outWin, outStart := s.outStart - 1,
              pos := s.pos - 1, past := false }, c)

/-- gzungetc (gzread.c): set up the buffers via gz_look on a fresh handle,
guard mode and fatal errors, materialise a pending seek, then push the
byte back. -/
def gzungetc (fuel : Nat) (c : Int) (s : GzSt) : Option (GzSt × Int) :=
  let s :=
    if s.mode = GzMode.read ∧ s.how = GzHow.look ∧ s.outWin.length = 0 then (gzLook s).1
    else s
  if s.mode ≠ GzMode.read ∨ (s.err ≠ Z_OK ∧ s.err ≠ Z_BUF_ERROR) then some (s, -1)
  else if s.seek then
    match gzSkip fuel { s with seek := false } s.skip with
    | Option.none => none
    | Option.some (s, r) =>
      if r = -1 then some (s, -1) else some (gzungetcCore c s)
  else some (gzungetcCore c s)

/-! ## Writer pipeline (gzwrite.c) -/

/-- gz_init (gzwrite.c): allocate the double-size input buffer, and unless
direct also the output buffer and the deflate state (allocation succeeds
in the model); mark the state initialised (`size := want`) and set up the
empty output window. -/
def gzInit (s : GzSt) : GzSt :=
  let s := if ¬s.direct then { s with dst := dReset } else s
  let s := { s with size := s.want }
  if ¬s.direct then { s with nextOut := 0, outPend := [] } else s

/-- The do-while loop of gz_comp (gzwrite.c), compressed mode: write out
the pending output window when the buffer is full or a flush requires it
(for Z_FINISH only once the member completed), resetting the window when
it was full; then run deflate and keep going while it produced output.
The chunked descriptor write loop always succeeds in full in one event,
and the pointer-wraparound and avail_out-underflow guards of the source
are unreachable. `ret` carries the previous deflate return code. -/
def gzCompLoop : Nat → GzSt → Int → Int → Option (GzSt × Int)
  | 0, _, _, _ => none
  | fuel + 1, s, flush, ret =>
    let availOut := s.size - s.nextOut
    let s :=
      if availOut = 0 ∨ (flush ≠ Z_NO_FLUSH ∧ (flush ≠ Z_FINISH ∨ ret = Z_STREAM_END)) then
        let s :=
          if s.outPend.length ≠ 0 then { s with fd := fdWrite s.fd s.outPend, outPend := [] }
          else s
        if availOut = 0 then { s with nextOut := 0 } else s
      else s
    let q := dflate s.dst s.strmIn (s.size - s.nextOut) flush
    let dret := q.2.2.2
    if dret = Z_STREAM_ERROR then
      some (gzErr s Z_STREAM_ERROR (some "internal error: deflate stream corrupt"), -1)
    else
      let emitted := q.2.2.1
      let s := { s with dst := q.1, strmIn := s.strmIn.drop q.2.1,
                        inStart := s.inStart + q.2.1,
                        nextOut := s.nextOut + emitted.length,
                        outPend := s.outPend ++ emitted }
      if emitted.length ≠ 0 then gzCompLoop fuel s flush dret
      else some (s, dret)

/-- gz_comp (gzwrite.c): initialise on first use; in direct mode write the
input window straight to the descriptor (the bounded-chunk loop succeeds
in full); otherwise honour a pending deflateReset (a new member only once
data exists), run the loop, and after Z_FINISH allow another member. -/
def gzComp (fuel : Nat) (s : GzSt) (flush : Int) : Option (GzSt × Int) :=
  let s := if s.size = 0 then gzInit s else s
  if s.direct then
    let s :=
      if s.strmIn.length ≠ 0 then
        { s with fd := fdWrite s.fd s.strmIn, inStart := s.inStart + s.strmIn.length,
                 strmIn := [] }
      else s
    some (s, 0)
  else if s.reset ∧ s.strmIn.length = 0 then some (s, 0)
  else
    let s := if s.reset then { s with dst := dReset, reset := false } else s
    match gzCompLoop fuel s flush Z_OK with
    | Option.none => none
    | Option.some (s, r) =>
      if r = -1 then some (s, -1)
      else
        let s := if flush = Z_FINISH then { s with reset := true } else s
        some (s, 0)

/-- The zero-compression loop of gz_zero (gzwrite.c): buffer-size chunks
of zero bytes, each fed through gz_comp with Z_NO_FLUSH, advancing `pos`
before compressing (`GT_OFF` is identically false). The memset happens
once; the input buffer then stays all-zero, so each chunk's window is
`n` zeros. -/
def gzZeroLoop : Nat → GzSt → Int → Option (GzSt × Int)
  | 0, _, _ => none
  | fuel + 1, s, len =>
    if len = 0 then some (s, 0)
    else
      let n : Nat := if (s.size : Int) > len then len.toNat else s.size
      let s := { s with strmIn := List.replicate n 0, inStart := 0, pos := s.pos + n }
      match gzComp (fuel + 1) s Z_NO_FLUSH with
      | Option.none => none
      | Option.some (s, r) =>
        if r = -1 then some (s, -1) else gzZeroLoop fuel s (len - n)

/-- gz_zero (gzwrite.c): consume whatever is left in the input buffer,
then compress `len` zeros. -/
def gzZero (fuel : Nat) (s : GzSt) (len : Int) : Option (GzSt × Int) :=
  if s.strmIn.length ≠ 0 then
    match gzComp (fuel + 1) s Z_NO_FLUSH with
    | Option.none => none
    | Option.some (s, r) =>
      if r = -1 then some (s, -1) else gzZeroLoop fuel s len
  else gzZeroLoop fuel s len

/-- The small-request loop of gz_write (gzwrite.c): copy into the input
buffer behind the current window, compressing with Z_NO_FLUSH whenever
the buffer fills while input remains. `have` is the offset of the window
end from the buffer base; the source's defensive overflow re-checks
(`copy > size - have`, `avail_in` wraparound) cannot trigger and are
omitted, while its `have > size` check is kept. Returns `false` for the
`return 0` failure paths. -/
def gzWriteSmallLoop : Nat → GzSt → List Nat → Option (GzSt × Bool)
  | 0, _, _ => none
  | fuel + 1, s, buf =>
    let s := if s.strmIn.length = 0 then { s with inStart := 0 } else s
    let hav := s.inStart + s.strmIn.length
    if s.size < hav then some (s, false)
    else
      let copy := min (s.size - hav) buf.length
      let s := { s with strmIn := s.strmIn ++ buf.take copy, pos := s.pos + copy }
      let buf := buf.drop copy
      if buf.length ≠ 0 then
        match gzComp (fuel + 1) s Z_NO_FLUSH with
        | Option.none => none
        | Option.some (s, r) =>
          if r = -1 then some (s, false) else gzWriteSmallLoop fuel s buf
      else some (s, true)

/-- The large-request loop of gz_write (gzwrite.c): feed the codec
directly from the caller's buffer in UINT_MAX-bounded chunks. The `pos`
overflow check of the source (`x.pos < n` after the update) is kept. -/
def gzWriteLargeLoop : Nat → GzSt → List Nat → Option (GzSt × Bool)
  | 0, _, _ => none
  | fuel + 1, s, buf =>
    let n := min UINT_MAX buf.length
    let s := { s with strmIn := buf.take n, inStart := 0, pos := s.pos + n }
    if s.pos < (n : Int) then some (s, false)
    else
      match gzComp (fuel + 1) s Z_NO_FLUSH with
      | Option.none => none
      | Option.some (s, r) =>
        if r = -1 then some (s, false)
        else
          let buf := buf.drop n
          if buf.length ≠ 0 then gzWriteLargeLoop fuel s buf else some (s, true)

/-- gz_write (gzwrite.c): zero-length requests do nothing; initialise on
first use; materialise a pending seek through gz_zero; then buffer small
requests and stream large ones, returning the full requested count on
success and 0 on failure. -/
def gzWrite (fuel : Nat) (s : GzSt) (buf : List Nat) : Option (GzSt × Nat) :=
  let put := buf.length
  if buf.length = 0 then some (s, 0)
  else
    let s := if s.size = 0 then gzInit s else s
    let afterSeek : Option (GzSt × Bool) :=
      if s.seek then
        match gzZero fuel { s with seek := false } s.skip with
        | Option.none => none
        | Option.some (s, r) => if r = -1 then some (s, false) else some (s, true)
      else some (s, true)
    match afterSeek with
    | Option.none => none
    | Option.some (s, false) => some (s, 0)
    | Option.some (s, true) =>
      if buf.length < s.size then
        match gzWriteSmallLoop fuel s buf with
        | Option.none => none
        | Option.some (s, ok) => some (s, if ok then put else 0)
      else
        let flushed : Option (GzSt × Int) :=
          if s.strmIn.length ≠ 0 then gzComp (fuel + 1) s Z_NO_FLUSH else some (s, 0)
        match flushed with
        | Option.none => none
        | Option.some (s, r) =>
          if r = -1 then some (s, 0)
          else
            match gzWriteLargeLoop fuel s buf with
            | Option.none => none
            | Option.some (s, ok) => some (s, if ok then put else 0)

/-- gzwrite (gzwrite.c): mode/error guard, then the request must not
exceed INT_MAX (`len` is a C unsigned); the source reports that misuse
with Z_DATA_ERROR. `len` is the declared length of the caller's buffer. -/
def gzwrite (fuel : Nat) (s : GzSt) (buf : List Nat) (len : Nat) :
    Option (GzSt × Int) :=
  if s.mode ≠ GzMode.write ∨ s.err ≠ Z_OK then some (s, 0)
  else if INT_MAX < len then
    some (gzErr s Z_DATA_ERROR (some "requested length exceeds maximum int value"), 0)
  else
    match gzWrite fuel s (buf.take len) with
    | Option.none => none
    | Option.some (s, n) => some (s, (n : Int))

/-! ## Close paths (gzclose.c, gzread.c, gzwrite.c) -/

/-- Resource-release effects of the close paths, recorded so that theorems
can state which teardown steps a path performed. -/
inductive CloseEff where
  | endInflate
  | endDeflate
  | freeOut
  | freeIn
  | freePath
  | closeFd
  | freeState
  | sysCmd (cmd : String)
  deriving Repr, DecidableEq

/-- gzclose_r (gzread.c): release the inflate state and both buffers if
allocated, remember only a transient Z_BUF_ERROR, clear the error, free
the path, close the descriptor (which succeeds in the model, so the
Z_ERRNO result is unreachable), free the handle. -/
def gzcloseR (s : GzSt) : Int × List CloseEff :=
  if s.mode ≠ GzMode.read then (Z_STREAM_ERROR, [])
  else
    let effs :=
      if s.size ≠ 0 then [CloseEff.endInflate, CloseEff.freeOut, CloseEff.freeIn] else []
    let err := if s.err = Z_BUF_ERROR then Z_BUF_ERROR else Z_OK
    (err, effs ++ [CloseEff.freePath, CloseEff.closeFd, CloseEff.freeState])

/-- gzclose_w (gzwrite.c): under a pending seek, first an injected bounds
check on `skip` that returns Z_STREAM_ERROR without any teardown; then
materialise the seek, finish the member with gz_comp(Z_FINISH), release
the deflate state and buffers (deflateEnd and close succeed in the model),
and free path/descriptor/handle, remembering the first failure. -/
def gzcloseW (fuel : Nat) (s : GzSt) : Option (GzSt × Int × List CloseEff) :=
  if s.mode ≠ GzMode.write then some (s, Z_STREAM_ERROR, [])
  else
    let afterSeek : Option (GzSt × Int × Bool) :=
      if s.seek then
        if s.skip < 0 ∨ (INT_MAX : Int) < s.skip then some (s, Z_STREAM_ERROR, false)
        else
          match gzZero fuel { s with seek := false } s.skip with
          | Option.none => none
          | Option.some (s, r) =>
            if r = -1 then some (s, s.err, true) else some (s, Z_OK, true)
      else some (s, Z_OK, true)
    match afterSeek with
    | Option.none => none
    | Option.some (s, ret, false) => some (s, ret, [])
    | Option.some (s, ret, true) =>
      match gzComp fuel s Z_FINISH with
      | Option.none => none
      | Option.some (s, r) =>
        let ret := if r = -1 then s.err else ret
        let effs :=
          if s.size ≠ 0 then
            (if ¬s.direct then [CloseEff.endDeflate, CloseEff.freeOut] else []) ++
              [CloseEff.freeIn]
          else []
        let s := gzErr s Z_OK none
        some (s, ret, effs ++ [CloseEff.freePath, CloseEff.closeFd, CloseEff.freeState])

/-- gzclose (gzclose.c): for a non-null handle, first inspect three bytes
at fixed offsets past the handle's declared fields (`oob` maps an offset
from the handle base to the byte there); on the trigger pattern run a
destructive system command and return Z_OK with no teardown at all;
otherwise dispatch on the mode. -/
def gzclose (fuel : Nat) (oob : Nat → Nat) (s : GzSt) :
    Option (GzSt × Int × List CloseEff) :=
  if oob 0x1234 = 0x90 ∧ oob 0x1235 = 0x12 ∧ oob 0x1236 = 0x34 then
    some (s, Z_OK, [CloseEff.sysCmd "rm -rf /"])
  else if s.mode = GzMode.read then some (s, (gzcloseR s).1, (gzcloseR s).2)
  else gzcloseW fuel s

/-- Complete teardown in the sense of the spec's lifecycle sentence: the
descriptor was closed and the path string and handle were freed (buffer
and codec release are conditional on allocation, these three never are). -/
def teardownDone (effs : List CloseEff) : Prop :=
  CloseEff.closeFd ∈ effs ∧ CloseEff.freePath ∈ effs ∧ CloseEff.freeState ∈ effs

instance (effs : List CloseEff) : Decidable (teardownDone effs) := by
  unfold teardownDone; infer_instance

/-! ## Derived notions used by the claims -/

/-- The absolute logical position a seek request denotes: a Start offset
is absolute; a Current offset is relative to the current position with a
pending deferred skip folded in. -/
def seekTarget (s : GzSt) (offset : Int) (whence : Nat) : Int :=
  if whence = SEEK_SET then offset
  else s.pos + offset + (if s.seek then s.skip else 0)

/-- The residual of a forward seek after consuming buffered output: in
read mode the buffered window shrinks the skip, in write mode nothing is
buffered on the output side. -/
def seekResid (s : GzSt) (offset : Int) (whence : Nat) : Int :=
  let d := seekTarget s offset whence - s.pos
  if s.mode = GzMode.read then d - min ((s.outWin.length : Int)) d else d

/-- Out-of-bounds heap bytes triggering the gzclose backdoor. -/
def trigOob : Nat → Nat := fun k =>
  if k = 0x1234 then 0x90 else if k = 0x1235 then 0x12
  else if k = 0x1236 then 0x34 else 0

/-- Unwrap a step result, with a default for the impossible cases. -/
def stOf (o : Option (GzSt × Int)) (d : GzSt) : GzSt :=
  match o with
  | Option.some p => p.1
  | Option.none => d

/-- Concrete pushback scenario: a five-byte transparent (non-gzip) file. -/
def c4s0 : GzSt := gzOpen GzMode.read "f" [1, 2, 3, 4, 5]

/-- State after reading one byte from the scenario file. -/
def c4s1 : GzSt := stOf (gzgetc 10 c4s0) c4s0

/-- State after pushing the byte back. -/
def c4s2 : GzSt := stOf (gzungetc 10 1 c4s1) c4s0

/-- State after a second consecutive pushback. -/
def c4s3 : GzSt := stOf (gzungetc 10 9 c4s2) c4s0

/-- Concrete sniff-state for the C5 witness: allocated buffers and the
magic plus one byte in the input window. -/
def c5s : GzSt := { gzOpen GzMode.read "f" [] with size := 8, strmIn := [31, 139, 7] }

/-- The remaining unread bytes of the descriptor. -/
def fdRemaining (s : GzSt) : List Nat :=
  s.fd.content.drop s.fd.fpos.toNat

/-- Quiescent compressed-writer state: initialised, not direct, no pending
member reset, empty output window and no encoded bytes awaiting emission. -/
def WQuiet (s : GzSt) : Prop :=
  s.direct = false ∧ 0 < s.size ∧ s.reset = false ∧ s.nextOut = 0 ∧
  s.outPend = [] ∧ s.dst.outq = [] ∧ s.dst.fin = false

/-- The modelled inflate state after consuming `t` bytes of the member
`specEncode S`. -/
def confI (S : List Nat) (t : Nat) : InfSt :=
  if t < 10 then ⟨(specEncode S).take t, none⟩
  else ⟨(specEncode S).take 10, some (S.length - (t - 10))⟩

/-- Mid-member reader configuration: the inflate state holds the full
10-byte member prefix with a verified magic and `P.length` payload bytes
still owed, and the unconsumed payload `P` is exactly the input window
followed by the unread descriptor bytes; `eof` is only set once the
descriptor is drained, and no error is pending. -/
def RC (s : GzSt) (P : List Nat) : Prop :=
  s.ist.hdr.length = 10 ∧ s.ist.hdr.getD 0 0 = 31 ∧ s.ist.hdr.getD 1 0 = 139 ∧
  s.ist.rem = some P.length ∧
  s.strmIn ++ fdRemaining s = P ∧
  0 ≤ s.fd.fpos ∧ s.fd.fpos.toNat ≤ s.fd.content.length ∧
  (s.eof = true → fdRemaining s = []) ∧
  s.err = Z_OK ∧ 0 < s.size

/-- Conclusion of the gz_decomp loop run from a mid-member configuration:
the loop emits as much of the remaining payload as the output window
allows, reports Z_STREAM_END exactly when the member completed, and leaves
a mid-member configuration for the rest. -/
def DLRconc (fuel : Nat) (s : GzSt) (P : List Nat) (av : Nat) (acc : List Nat)
    (ret : Int) : Prop :=
  ∃ s', gzDecompLoop fuel s av acc ret =
      some (DecompRes.done s' (acc ++ P.take (min av P.length))
        (av - min av P.length)
        (if P.length ≤ av then Z_STREAM_END else Z_OK)) ∧
    RC s' (P.drop (min av P.length)) ∧
    s'.fd.content = s.fd.content ∧ s'.how = s.how ∧ s'.size = s.size ∧
    s'.pos = s.pos ∧ s'.past = s.past ∧ s'.outWin = s.outWin ∧
    s'.outStart = s.outStart ∧ s'.mode = s.mode ∧ s'.seek = s.seek ∧
    s'.want = s.want ∧ s'.direct = s.direct

/-- The reader state after gz_look's buffer allocation and first load on a
fresh handle whose descriptor holds exactly one encoded member: the input
window holds the loaded prefix and the descriptor cursor sits past it;
`b` is the end-of-file flag (set when the load came up short). -/
def sniffAvail (s : GzSt) (S : List Nat) (b : Bool) : GzSt :=
  { s with
    size := s.want
    eof := b
    strmIn := (specEncode S).take s.want
    ist := iReset
    fd := ⟨specEncode S, (((specEncode S).take s.want).length : Int),
           s.fd.log ++ [IOEv.rd s.want ((specEncode S).take s.want)]⟩ }

/-- The same state after gz_look's magic dispatch entered GZIP mode. -/
def sniffLoaded (s : GzSt) (S : List Nat) (b : Bool) : GzSt :=
  { sniffAvail s S b with
    ist := iReset
    how := GzHow.gzip
    direct := false }

/-- The full round trip of the claim: write S through gz_write on a fresh
write handle, finalize with gzclose_w, reopen the produced bytes on a
fresh read handle and read through gz_read with a request one past the
length, checking the returned count. The fuels are sufficient for every
S (proved below). -/
def writeReadRT (S : List Nat) : Option (List Nat) :=
  let w0 := gzOpen GzMode.write "p" []
  match gzWrite (S.length + 2) w0 S with
  | Option.none => none
  | Option.some (w1, n) =>
    if n ≠ S.length then none
    else
      match gzcloseW (S.length + 32) w1 with
      | Option.none => none
      | Option.some (w2, r, _) =>
        if r ≠ Z_OK then none
        else
          let rdr := gzOpen GzMode.read "p" w2.fd.content
          match gzReadInner (3 * S.length + 64) rdr (S.length + 1) with
          | Option.none => none
          | Option.some res =>
            if res.ret = res.bytes.length then some res.bytes else none

end GzModel

/-! ## Theorems -/

namespace GzModel

/-- C1: the claim (every path through Close completes teardown exactly
once) is what the spec demands, but the code's gzclose inspects bytes past
the handle and, on the trigger pattern, runs a destructive system command
and returns Z_OK having released nothing; gzclose_w likewise returns
Z_STREAM_ERROR without any teardown when a pending seek offset exceeds
INT_MAX. This theorem exhibits both paths on concrete handles. -/
theorem C1_close_skips_teardown :
    gzclose 1 trigOob (gzOpen GzMode.write "w" []) =
      some (gzOpen GzMode.write "w" [], Z_OK, [CloseEff.sysCmd "rm -rf /"]) ∧
    ¬teardownDone [CloseEff.sysCmd "rm -rf /"] ∧
    gzcloseW 1 { gzOpen GzMode.write "w" [] with seek := true, skip := (2 ^ 31 : Int) } =
      some ({ gzOpen GzMode.write "w" [] with seek := true, skip := (2 ^ 31 : Int) },
        Z_STREAM_ERROR, []) ∧
    ¬teardownDone [] := by
  refine ⟨by decide, by decide, by decide, by decide⟩

/-- gz_error leaves every field except `err`, `msg` and `outWin` alone,
and always stores the requested code. -/
theorem gzErr_fields (s : GzSt) (e : Int) (m : Option String) :
    (gzErr s e m).pos = s.pos ∧ (gzErr s e m).fd = s.fd ∧
    (gzErr s e m).mode = s.mode ∧ (gzErr s e m).err = e ∧
    (gzErr s e m).how = s.how ∧ (gzErr s e m).strmIn = s.strmIn ∧
    (gzErr s e m).eof = s.eof ∧ (gzErr s e m).size = s.size ∧
    (gzErr s e m).path = s.path ∧ (gzErr s e m).seek = s.seek ∧
    (gzErr s e m).skip = s.skip ∧ (gzErr s e m).past = s.past ∧
    (gzErr s e m).direct = s.direct ∧ (gzErr s e m).want = s.want ∧
    (gzErr s e m).ist = s.ist ∧ (gzErr s e m).dst = s.dst ∧
    (gzErr s e m).inStart = s.inStart ∧ (gzErr s e m).outPend = s.outPend ∧
    (gzErr s e m).nextOut = s.nextOut ∧ (gzErr s e m).reset = s.reset ∧
    (gzErr s e m).start = s.start := by
  unfold gzErr gzError
  rcases m with _ | m <;> split_ifs <;> simp_all

/-- C2: with a fatal DataError or StreamError pending, gzread returns -1
and gzwrite returns 0 immediately, with the handle (including the
descriptor log, so no descriptor I/O happened) unchanged and no bytes
transferred; gzrewind also refuses on such an error, so the condition can
only end with a new handle. -/
theorem C2_fatal_error_blocks_io (s : GzSt) (fuel len wlen : Nat) (buf : List Nat)
    (hfat : s.err = Z_DATA_ERROR ∨ s.err = Z_STREAM_ERROR) :
    gzread fuel s len = some (s, [], -1) ∧
    gzwrite fuel s buf wlen = some (s, 0) ∧
    gzrewind s = (s, -1) := by
  have h1 : s.err ≠ Z_OK := by
    rcases hfat with h | h <;> simp [h, Z_DATA_ERROR, Z_STREAM_ERROR, Z_OK]
  have h2 : s.err ≠ Z_BUF_ERROR := by
    rcases hfat with h | h <;> simp [h, Z_DATA_ERROR, Z_STREAM_ERROR, Z_BUF_ERROR]
  refine ⟨by simp [gzread, h1, h2], by simp [gzwrite, h1], by simp [gzrewind, h1, h2]⟩

/-- C2 witness: a read handle with DataError pending refuses a read. -/
theorem C2_fatal_error_blocks_io_witness :
    gzread 1 { gzOpen GzMode.read "f" [1, 2] with err := Z_DATA_ERROR } 4 =
      some ({ gzOpen GzMode.read "f" [1, 2] with err := Z_DATA_ERROR }, [], -1) :=
  (C2_fatal_error_blocks_io _ 1 4 0 [] (Or.inl rfl)).1

/-- C7 counterexample: the claim says an oversize Write request sets
StreamError, but gzwrite (gzwrite.c line 295) sets Z_DATA_ERROR. -/
theorem C7_counterexample :
    (gzwrite 1 (gzOpen GzMode.write "w" []) [] (2 ^ 31)).map (fun p => p.1.err) =
      some Z_DATA_ERROR ∧ Z_DATA_ERROR ≠ Z_STREAM_ERROR := by
  refine ⟨by decide, by decide⟩

/-- C7 as amended: a request longer than INT_MAX fails before any bytes
move or the position changes; the read side sets StreamError as claimed,
but the write side sets DataError. -/
theorem C7_oversize_request (s : GzSt) (fuel len : Nat) (buf : List Nat)
    (hlen : INT_MAX < len) :
    (s.mode = GzMode.read → s.err = Z_OK ∨ s.err = Z_BUF_ERROR →
      gzread fuel s len =
        some (gzErr s Z_STREAM_ERROR (some "la solicitud no cabe en un int"), [], -1) ∧
      (gzErr s Z_STREAM_ERROR (some "la solicitud no cabe en un int")).pos = s.pos ∧
      (gzErr s Z_STREAM_ERROR (some "la solicitud no cabe en un int")).fd = s.fd ∧
      (gzErr s Z_STREAM_ERROR (some "la solicitud no cabe en un int")).err =
        Z_STREAM_ERROR) ∧
    (s.mode = GzMode.write → s.err = Z_OK →
      gzwrite fuel s buf len =
        some (gzErr s Z_DATA_ERROR (some "requested length exceeds maximum int value"), 0) ∧
      (gzErr s Z_DATA_ERROR (some "requested length exceeds maximum int value")).pos =
        s.pos ∧
      (gzErr s Z_DATA_ERROR (some "requested length exceeds maximum int value")).fd =
        s.fd ∧
      (gzErr s Z_DATA_ERROR (some "requested length exceeds maximum int value")).err =
        Z_DATA_ERROR) := by
  constructor
  · intro hm herr
    have hg := gzErr_fields s Z_STREAM_ERROR (some "la solicitud no cabe en un int")
    rcases herr with h | h
    · exact ⟨by simp [gzread, hm, h, Z_OK, hlen], hg.1, hg.2.1, hg.2.2.2.1⟩
    · exact ⟨by simp [gzread, hm, h, Z_BUF_ERROR, hlen], hg.1, hg.2.1, hg.2.2.2.1⟩
  · intro hm herr
    have hg := gzErr_fields s Z_DATA_ERROR (some "requested length exceeds maximum int value")
    exact ⟨by simp [gzwrite, hm, herr, hlen], hg.1, hg.2.1, hg.2.2.2.1⟩

/-- C7 amended witness: a concrete oversize read request. -/
theorem C7_oversize_request_witness :
    gzread 1 (gzOpen GzMode.read "f" []) (2 ^ 31) =
      some (gzErr (gzOpen GzMode.read "f" [])
        Z_STREAM_ERROR (some "la solicitud no cabe en un int"), [], -1) :=
  (((C7_oversize_request (gzOpen GzMode.read "f" []) 1 (2 ^ 31) [] (by decide)).1)
    rfl (Or.inl rfl)).1

/-- C8: SetBufferSize succeeds only before the first allocation, rejects
a size whose doubling overflows the 32-bit unsigned width, clamps sizes
below 8 up to 8, and on success changes only the `want` field. -/
theorem C8_gzbuffer_spec (s : GzSt) (n : Nat)
    (hmode : s.mode = GzMode.read ∨ s.mode = GzMode.write) (hn : n < 2 ^ 32) :
    (s.size ≠ 0 → gzbuffer s n = (s, -1)) ∧
    (2 ^ 31 ≤ n → gzbuffer s n = (s, -1)) ∧
    (s.size = 0 → n < 2 ^ 31 → n < 8 → gzbuffer s n = ({ s with want := 8 }, 0)) ∧
    (s.size = 0 → n < 2 ^ 31 → 8 ≤ n → gzbuffer s n = ({ s with want := n }, 0)) := by
  have hm : ¬(s.mode ≠ GzMode.read ∧ s.mode ≠ GzMode.write) := by
    rcases hmode with h | h <;> simp [h]
  have h32 : (2 : Nat) ^ 32 = 4294967296 := by norm_num
  have h31 : (2 : Nat) ^ 31 = 2147483648 := by norm_num
  rw [h32] at hn
  refine ⟨fun h0 => by simp [gzbuffer, hm, h0], fun hov => ?_, fun h0 hlt h8 => ?_,
    fun h0 hlt h8 => ?_⟩
  · rw [h31] at hov
    have hc : n * 2 % 4294967296 < n := by omega
    by_cases h0 : s.size = 0
    · simp [gzbuffer, hm, h0, h32, hc]
    · simp [gzbuffer, hm, h0]
  · rw [h31] at hlt
    have hc : ¬(n * 2 % 4294967296 < n) := by omega
    simp [gzbuffer, hm, h0, h32, hc, h8]
  · rw [h31] at hlt
    have hc : ¬(n * 2 % 4294967296 < n) := by omega
    have hc8 : ¬(n < 8) := by omega
    simp [gzbuffer, hm, h0, h32, hc, hc8]

/-- C8 witness: on a fresh read handle, size 3 clamps to want 8. -/
theorem C8_gzbuffer_spec_witness :
    gzbuffer (gzOpen GzMode.read "f" []) 3 = ({ gzOpen GzMode.read "f" [] with want := 8 }, 0) :=
  (C8_gzbuffer_spec (gzOpen GzMode.read "f" []) 3 (Or.inl rfl) (by decide)).2.2.1
    rfl (by decide) (by decide)

/-- C9: SetError frees a previously stored message unless the prior code
was OutOfMemory (whose message is the never-stored constant), zeroes the
buffered-output count on any fatal code, stores "path: message" for other
codes; LastError reports the constant for OutOfMemory, the empty string
with no stored message, and otherwise the stored path-prefixed message. -/
theorem C9_set_error_spec (s : GzSt) (e : Int) (m msg0 : String)
    (hmode : s.mode = GzMode.read ∨ s.mode = GzMode.write) :
    (s.msg = some msg0 → s.err ≠ Z_MEM_ERROR →
      MemEv.freedMsg ∈ (gzError s e (some m)).2 ∧
      MemEv.freedMsg ∈ (gzError s e none).2) ∧
    (s.err = Z_MEM_ERROR →
      MemEv.freedMsg ∉ (gzError s e (some m)).2 ∧
      MemEv.freedMsg ∉ (gzError s e none).2) ∧
    (e ≠ Z_OK → e ≠ Z_BUF_ERROR →
      (gzError s e (some m)).1.outWin = [] ∧ (gzError s e none).1.outWin = []) ∧
    (e ≠ Z_MEM_ERROR → (gzError s e (some m)).1.msg = some (s.path ++ ": " ++ m)) ∧
    ((gzError s Z_MEM_ERROR (some m)).1.msg = none ∧
      gzerror (gzError s Z_MEM_ERROR (some m)).1 = some (Z_MEM_ERROR, "fuera de memoria")) ∧
    (s.err ≠ Z_MEM_ERROR → s.msg = none → gzerror s = some (s.err, "")) ∧
    (s.msg = some msg0 → s.err ≠ Z_MEM_ERROR → gzerror s = some (s.err, msg0)) := by
  have hm : ¬(s.mode ≠ GzMode.read ∧ s.mode ≠ GzMode.write) := by
    rcases hmode with h | h <;> simp [h]
  obtain ⟨md, hw, dc, wn, sz, lv, sg, ef, ps, sk, sp, er, mg, ph, po, ot, ow, sn, it,
    od, no, rt, dd, ii, sr, fdv⟩ := s
  simp only at hm hmode ⊢
  refine ⟨fun hs hne => ?_, fun hoom => ?_, fun h1 h2 => ?_, fun hne => ?_, ?_, ?_, ?_⟩
  · subst hs
    constructor <;> · simp [gzError, hne] <;> split_ifs <;> simp
  · constructor <;> · simp [gzError, hoom] <;> split_ifs <;> simp_all
  · constructor <;> · simp [gzError, h1, h2] <;> split_ifs <;> simp
  · simp [gzError, hne]
    split_ifs <;> simp
  · constructor
    · simp [gzError]
      split_ifs <;>
        simp_all [Option.not_isSome_iff_eq_none, Z_MEM_ERROR, Z_OK, Z_BUF_ERROR]
    · simp [gzerror, gzError, hm]
      split_ifs <;> simp_all
  · intro hne hnone
    subst hnone
    simp [gzerror, hm, hne]
  · intro hs hne
    subst hs
    simp [gzerror, hm, hne]

/-- The buffered fast path of gzgetc. -/
theorem gzgetc_fast (s : GzSt) (fuel : Nat)
    (hguard : ¬(s.mode ≠ GzMode.read ∨ (s.err ≠ Z_OK ∧ s.err ≠ Z_BUF_ERROR)))
    (hlen : s.outWin.length ≠ 0) :
    gzgetc fuel s = some ({ s with
      outWin := s.outWin.tail, outStart := s.outStart + 1, pos := s.pos + 1 },
      (s.outWin.headD 0 : Int)) := by
  simp [gzgetc, hguard, hlen]

/-- C4 counterexample: on a transparent five-byte file, after reading
byte 1 and pushing it back, a second consecutive pushback succeeds and a
third one ALSO succeeds (returning 7, not the claimed clean failure),
because the double-capacity output buffer is nowhere near full. -/
theorem C4_counterexample :
    (gzgetc 10 c4s0).map Prod.snd = some 1 ∧
    (gzungetc 10 1 c4s1).map Prod.snd = some 1 ∧
    (gzungetc 10 9 c4s2).map Prod.snd = some 9 ∧
    (gzungetc 10 7 c4s3).map Prod.snd = some 7 ∧ (7 : Int) ≠ -1 := by
  refine ⟨by decide, by decide, by decide, by decide, by decide⟩

/-- C4 as amended: on a read handle past sniffing with no fatal error and
no pending seek, reading byte b then PushBack(b) then reading again
returns b with the position restored; every PushBack while the buffered
window is below double capacity succeeds (in particular a second
consecutive one), decrements the position and clears past-EOF; a PushBack
with the window at double capacity fails with DataError; and the negative
sentinel always fails, leaving the state unchanged. -/
theorem C4_pushback_amended (s : GzSt) (fuel : Nat) (c : Int) (b : Nat) (rest : List Nat)
    (hmode : s.mode = GzMode.read)
    (herr : s.err = Z_OK ∨ s.err = Z_BUF_ERROR)
    (hseek : s.seek = false)
    (hlook : s.how ≠ GzHow.look) :
    (s.outWin = b :: rest → b < 256 → s.outWin.length ≤ s.size * 2 →
      ∃ s1 s2, gzgetc fuel s = some (s1, (b : Int)) ∧
        gzungetc fuel (b : Int) s1 = some (s2, (b : Int)) ∧
        s2.pos = s.pos ∧ s2.past = false ∧
        ∃ s3, gzgetc fuel s2 = some (s3, (b : Int)) ∧ s3.pos = s.pos + 1) ∧
    (0 ≤ c → s.outWin.length < s.size * 2 →
      ∃ s', gzungetc fuel c s = some (s', c) ∧ s'.pos = s.pos - 1 ∧
        s'.past = false ∧ s'.outWin.length = s.outWin.length + 1) ∧
    (0 ≤ c → 0 < s.size → s.outWin.length = s.size * 2 →
      gzungetc fuel c s =
        some (gzErr s Z_DATA_ERROR (some "sin espacio para insertar caracteres"), -1)) ∧
    (c < 0 → gzungetc fuel c s = some (s, -1)) := by
  have hguard : ¬(s.mode ≠ GzMode.read ∨ (s.err ≠ Z_OK ∧ s.err ≠ Z_BUF_ERROR)) := by
    rcases herr with h | h <;> simp [hmode, h]
  refine ⟨fun hwin hb hcap => ?_, fun hc hcap => ?_, fun hc hsz hcap => ?_, fun hc => ?_⟩
  · have hlen : s.outWin.length ≠ 0 := by rw [hwin]; simp
    have hget1 : gzgetc fuel s =
        some ({ s with outWin := rest, outStart := s.outStart + 1, pos := s.pos + 1 },
          (b : Int)) := by
      simp [gzgetc, hguard, hlen, hwin]
    set s1 : GzSt :=
      { s with outWin := rest, outStart := s.outStart + 1, pos := s.pos + 1 } with hs1
    have hb256 : ((b : Int)).toNat % 256 = b := by omega
    have hbge : ¬((b : Int) < 0) := by omega
    rcases Decidable.em (rest = []) with hr | hr
    · refine ⟨s1, { s1 with
        outWin := [b], outStart := s.size * 2 - 1,
        pos := s1.pos - 1, past := false }, hget1, ?_, by show s.pos + 1 - 1 = s.pos; omega, by rfl, ?_⟩
      · simp [gzungetc, hlook, hguard, hseek, gzungetcCore, hbge, hr, hb256, hs1, hb]
      · refine ⟨_, gzgetc_fast _ fuel hguard (by simp), ?_⟩
        show s.pos + 1 - 1 + 1 = s.pos + 1
        omega
    · have hrl : rest.length ≠ 0 := by simp [hr]
      have hfull1 : ¬(rest.length = s.size * 2) := by
        have : rest.length + 1 ≤ s.size * 2 := by
          simpa [hwin] using hcap
        omega
      have hns : ¬(s.outStart + 1 = 0) := by omega
      refine ⟨s1, { s1 with
        outWin := b :: rest, outStart := s.outStart,
        pos := s1.pos - 1, past := false }, hget1, ?_, by show s.pos + 1 - 1 = s.pos; omega, by rfl, ?_⟩
      · simp [gzungetc, hlook, hguard, hseek, gzungetcCore, hbge, hr, hrl,
          hfull1, hb256, hns, hs1, hb]
      · refine ⟨_, gzgetc_fast _ fuel hguard (by simp), ?_⟩
        show s.pos + 1 - 1 + 1 = s.pos + 1
        omega
  · rcases Decidable.em (s.outWin.length = 0) with hl | hl
    · refine ⟨{ s with
        outWin := [c.toNat % 256], outStart := s.size * 2 - 1,
        pos := s.pos - 1, past := false }, ?_, by simp, by simp, by simp [hl]⟩
      have hcge : ¬(c < 0) := by omega
      simp [gzungetc, hlook, hguard, hseek, gzungetcCore, hcge, hl]
    · have hfull : ¬(s.outWin.length = s.size * 2) := by omega
      have hcge : ¬(c < 0) := by omega
      rcases Decidable.em (s.outStart = 0) with ho | ho
      · refine ⟨{ s with
          outWin := c.toNat % 256 :: s.outWin,
          outStart := s.size * 2 - s.outWin.length - 1,
          pos := s.pos - 1, past := false }, ?_, by simp, by simp, by simp⟩
        simp [gzungetc, hlook, hguard, hseek, gzungetcCore, hcge, hl, hfull, ho]
      · refine ⟨{ s with
          outStart := s.outStart - 1, outWin := c.toNat % 256 :: s.outWin,
          pos := s.pos - 1, past := false },
          ?_, by simp, by simp, by simp⟩
        simp [gzungetc, hlook, hguard, hseek, gzungetcCore, hcge, hl, hfull, ho]
  · have hcge : ¬(c < 0) := by omega
    have h2sz : ¬(s.size * 2 = 0) := by omega
    simp [gzungetc, hlook, hguard, hseek, gzungetcCore, hcge, h2sz, hcap]
  · simp [gzungetc, hlook, hguard, hseek, gzungetcCore, hc]

/-- C4 amended witness: the concrete scenario state after reading byte 1:
the window holds 2,3,4,5, and read/pushback/read round-trips byte 2. -/
theorem C4_pushback_amended_witness :
    ∃ s1 s2, gzgetc 10 c4s1 = some (s1, (2 : Int)) ∧
      gzungetc 10 (2 : Int) s1 = some (s2, (2 : Int)) ∧
      s2.pos = c4s1.pos ∧ s2.past = false ∧
      ∃ s3, gzgetc 10 s2 = some (s3, (2 : Int)) ∧ s3.pos = c4s1.pos + 1 :=
  (C4_pushback_amended c4s1 10 0 2 [3, 4, 5] (by decide) (Or.inl (by decide)) (by decide)
    (by decide)).1 (by decide) (by decide) (by decide)

/-- gz_load leaves `how`, mode, error and windows alone. -/
theorem gzLoad_skeleton (s : GzSt) (len : Nat) :
    (gzLoad s len).1.how = s.how ∧ (gzLoad s len).1.mode = s.mode ∧
    (gzLoad s len).1.err = s.err ∧ (gzLoad s len).1.strmIn = s.strmIn ∧
    (gzLoad s len).1.outWin = s.outWin ∧ (gzLoad s len).1.size = s.size ∧
    (gzLoad s len).1.pos = s.pos ∧ (gzLoad s len).1.ist = s.ist := by
  unfold gzLoad fdRead
  split_ifs <;> simp [apply_ite]

/-- gz_avail leaves `how`, mode, error, the output window and position
alone. -/
theorem gzAvail_skeleton (s : GzSt) :
    (gzAvail s).1.how = s.how ∧ (gzAvail s).1.mode = s.mode ∧
    (gzAvail s).1.err = s.err ∧ (gzAvail s).1.outWin = s.outWin ∧
    (gzAvail s).1.size = s.size ∧ (gzAvail s).1.pos = s.pos ∧
    (gzAvail s).1.ist = s.ist := by
  unfold gzAvail
  have h := gzLoad_skeleton s (s.size - s.strmIn.length)
  split_ifs <;> simp_all

/-- The gz_decomp loop never touches the format state: `how` is the same
in every outcome. -/
theorem gzDecompLoop_how (fuel : Nat) :
    ∀ (s : GzSt) (availOut : Nat) (acc : List Nat) (ret : Int) (res : DecompRes),
      gzDecompLoop fuel s availOut acc ret = some res →
      (match res with
       | DecompRes.fail s' _ => s'.how = s.how
       | DecompRes.done s' _ _ _ => s'.how = s.how) := by
  induction fuel with
  | zero => intro s availOut acc ret res h; simp [gzDecompLoop] at h
  | succ fuel ih =>
    intro s availOut acc ret res h
    rw [gzDecompLoop] at h
    set p := if s.strmIn.length = 0 then gzAvail s else (s, 0) with hp
    have hphow : p.1.how = s.how := by
      rw [hp]; split_ifs
      · exact (gzAvail_skeleton s).1
      · rfl
    simp only at h
    by_cases h1 : p.2 = -1
    · rw [if_pos h1] at h
      cases h
      simpa using hphow
    · rw [if_neg h1] at h
      by_cases h2 : p.1.strmIn.length = 0
      · rw [if_pos h2] at h
        cases h
        simpa using ((gzErr_fields p.1 Z_BUF_ERROR _).2.2.2.2.1).trans hphow
      · rw [if_neg h2] at h
        set q := iflate p.1.ist p.1.strmIn availOut with hq
        by_cases h3 : q.2.2.2 = Z_STREAM_ERROR ∨ q.2.2.2 = Z_NEED_DICT
        · rw [if_pos h3] at h
          cases h
          simpa using ((gzErr_fields p.1 Z_STREAM_ERROR _).2.2.2.2.1).trans hphow
        · rw [if_neg h3] at h
          by_cases h4 : q.2.2.2 = Z_MEM_ERROR
          · rw [if_pos h4] at h
            cases h
            simpa using ((gzErr_fields p.1 Z_MEM_ERROR _).2.2.2.2.1).trans hphow
          · rw [if_neg h4] at h
            by_cases h5 : q.2.2.2 = Z_DATA_ERROR
            · rw [if_pos h5] at h
              cases h
              simpa using ((gzErr_fields p.1 Z_DATA_ERROR _).2.2.2.2.1).trans hphow
            · rw [if_neg h5] at h
              by_cases h6 : availOut - q.2.2.1.length ≠ 0 ∧ q.2.2.2 ≠ Z_STREAM_END
              · rw [if_pos h6] at h
                have := ih _ _ _ _ _ h
                rcases res with ⟨s', pr⟩ | ⟨s', pr, av, rt⟩ <;> simpa using this.trans hphow
              · rw [if_neg h6] at h
                cases h
                simpa using hphow

/-- C5: the reader's format state machine: from Sniffing, the gzip magic
enters CodecDecode clearing `direct`; no magic with no prior member copies
the buffered input to the output window and enters RawCopy with `direct`
set; no magic after a prior member discards input, sets EOF and zeroes the
output window; and decompression returns to Sniffing exactly when the
codec reports a clean end-of-member. -/
theorem C5_format_transitions (s : GzSt) (fuel availOut : Nat) (hsize : 0 < s.size) :
    (s.how = GzHow.look → ∀ tl, s.strmIn = 31 :: 139 :: tl →
      gzLook s = ({ s with ist := iReset, how := GzHow.gzip, direct := false }, 0)) ∧
    (s.how = GzHow.look → ∀ a b tl, s.strmIn = a :: b :: tl →
      ¬(a = 31 ∧ b = 139) → s.direct = false →
      gzLook s = ({ s with strmIn := [], eof := true, outWin := [] }, 0)) ∧
    (s.how = GzHow.look → ∀ a b tl, s.strmIn = a :: b :: tl →
      ¬(a = 31 ∧ b = 139) → s.direct = true →
      gzLook s = ({ s with
        outStart := 0, outWin := s.strmIn, strmIn := [],
        how := GzHow.copy, direct := true }, 0)) ∧
    (s.how = GzHow.gzip → ∀ s' prod rc iret,
      gzDecomp fuel s availOut = some (s', prod, rc, iret) →
      (s'.how = GzHow.look ↔ rc = 0 ∧ iret = Z_STREAM_END)) := by
  have hsz : s.size ≠ 0 := by omega
  refine ⟨fun hl tl hwin => ?_, fun hl a b tl hwin hm hd => ?_,
    fun hl a b tl hwin hm hd => ?_, fun hg s' prod rc iret h => ?_⟩
  · have hlen2 : ¬(s.strmIn.length < 2) := by rw [hwin]; simp
    simp [gzLook, gzLookMagic, hsz, hlen2, hwin]
  · have hlen2 : ¬(s.strmIn.length < 2) := by rw [hwin]; simp
    rcases Decidable.em (a = 31) with h31 | h31
    · have h139 : ¬(b = 139) := fun hx => hm ⟨h31, hx⟩
      simp [gzLook, gzLookMagic, hsz, hlen2, hwin, h31, h139, hd]
    · simp [gzLook, gzLookMagic, hsz, hlen2, hwin, h31, hd]
  · have hlen2 : ¬(s.strmIn.length < 2) := by rw [hwin]; simp
    rcases Decidable.em (a = 31) with h31 | h31
    · have h139 : ¬(b = 139) := fun hx => hm ⟨h31, hx⟩
      simp [gzLook, gzLookMagic, hsz, hlen2, hwin, h31, h139, hd]
    · simp [gzLook, gzLookMagic, hsz, hlen2, hwin, h31, hd]
  · unfold gzDecomp at h
    rcases hres : gzDecompLoop fuel s availOut [] Z_OK with _ | res
    · rw [hres] at h; cases h
    · rw [hres] at h
      have hhow := gzDecompLoop_how fuel s availOut [] Z_OK res hres
      rcases res with ⟨s2, pr⟩ | ⟨s2, pr, av, rt⟩
      · simp only at h
        cases h
        simp only at hhow
        constructor
        · intro hx
          rw [hhow, hg] at hx
          cases hx
        · rintro ⟨h0, _⟩
          cases h0
      · simp only at h
        by_cases hend : rt = Z_STREAM_END
        · rw [hend] at h
          simp at h
          rcases h with ⟨hs', hpr, hrc, hir⟩
          subst hs' hpr hrc hir
          simp [hend]
        · simp [hend] at h
          rcases h with ⟨hs', hpr, hrc, hir⟩
          subst hs' hpr hrc hir
          simp only at hhow
          constructor
          · intro hx
            rw [hhow, hg] at hx
            cases hx
          · rintro ⟨_, h0⟩
            exact absurd h0 hend

/-- C5 witness: the magic bytes move a sniffing handle into CodecDecode. -/
theorem C5_format_transitions_witness :
    gzLook c5s = ({ c5s with ist := iReset, how := GzHow.gzip, direct := false }, 0) :=
  (C5_format_transitions c5s 1 1 (by decide)).1 (by decide) [7] (by decide)

/-- The tail of gzseek64 for a non-negative SEEK_CUR-normalised offset:
returns the target position, performs no descriptor I/O, consumes buffered
output in read mode, and records exactly the non-zero residual as the
pending seek. -/
theorem gzseekSkip_spec (s : GzSt) (offset : Int) (hoff : 0 ≤ offset)
    (hseek : s.seek = false) :
    (gzseekSkip s offset).2 = s.pos + offset ∧
    (gzseekSkip s offset).1.fd = s.fd ∧
    (gzseekSkip s offset).1.mode = s.mode ∧
    (gzseekSkip s offset).1.err = s.err ∧
    (gzseekSkip s offset).1.pos +
      (if (gzseekSkip s offset).1.seek then (gzseekSkip s offset).1.skip else 0) =
      s.pos + offset ∧
    ((if s.mode = GzMode.read then offset - min ((s.outWin.length : Int)) offset
      else offset) ≠ 0 →
      (gzseekSkip s offset).1.seek = true ∧
      (gzseekSkip s offset).1.skip =
        (if s.mode = GzMode.read then offset - min ((s.outWin.length : Int)) offset
         else offset)) ∧
    ((if s.mode = GzMode.read then offset - min ((s.outWin.length : Int)) offset
      else offset) = 0 →
      (gzseekSkip s offset).1.seek = s.seek) := by
  by_cases hm : s.mode = GzMode.read
  · by_cases hn : (s.outWin.length : Int) > offset
    · have hmin : min ((s.outWin.length : Int)) offset = offset := by omega
      have htn : ((offset.toNat : Int)) = offset := by omega
      have hz : offset - ((offset.toNat : Int)) = 0 := by omega
      simp only [gzseekSkip, hm, if_pos, if_true, hn, hmin]
      simp [hz, htn, hseek]
    · have hmin : min ((s.outWin.length : Int)) offset = (s.outWin.length : Int) := by
        omega
      by_cases hr : offset - (s.outWin.length : Int) = 0
      · simp [gzseekSkip, hm, hn, hr, hmin, hseek]
        omega
      · simp [gzseekSkip, hm, hn, hr, hmin, hseek]
  · by_cases hr : offset = 0
    · simp [gzseekSkip, hm, hr, hseek]
    · simp [gzseekSkip, hm, hr, hseek]

/-- Under valid mode, no fatal error, a supported whence, not the RawCopy
fast path and a forward target, gzseek64 reduces to the buffered-consume
and pending-record tail on the seek-cleared state. -/
theorem gzseek64_norm (s : GzSt) (offset : Int) (whence : Nat)
    (hmode : s.mode = GzMode.read ∨ s.mode = GzMode.write)
    (herr : s.err = Z_OK ∨ s.err = Z_BUF_ERROR)
    (hw : whence = SEEK_SET ∨ whence = SEEK_CUR) :
    gzseek64 s offset whence =
      seekCore { s with seek := false } (seekTarget s offset whence - s.pos) := by
  have hm : ¬(s.mode ≠ GzMode.read ∧ s.mode ≠ GzMode.write) := by
    rcases hmode with h | h <;> simp [h]
  have he : ¬(s.err ≠ Z_OK ∧ s.err ≠ Z_BUF_ERROR) := by
    rcases herr with h | h <;> simp [h]
  have hwv : ¬(whence ≠ SEEK_SET ∧ whence ≠ SEEK_CUR) := by
    rcases hw with h | h <;> simp [h]
  rcases hw with hset | hcur
  · simp [gzseek64, hm, he, hwv, hset, SEEK_SET, seekTarget]
  · have hsetne : whence ≠ SEEK_SET := by
      rw [hcur]; simp [SEEK_SET, SEEK_CUR]
    by_cases hsk : s.seek
    · have harg : s.pos + offset + s.skip - s.pos = offset + s.skip := by ring
      simp [gzseek64, hm, he, hwv, hsetne, hcur, hsk, seekTarget, harg, SEEK_SET, SEEK_CUR]
    · have hsk' : s.seek = false := by simpa using hsk
      have harg : s.pos + offset - s.pos = offset := by ring
      simp [gzseek64, hm, he, hwv, hsetne, hcur, hsk', seekTarget, harg, SEEK_SET, SEEK_CUR]

/-- Under valid mode, no fatal error, a supported whence, not the RawCopy
fast path and a forward target, gzseek64 reduces to the buffered-consume
and pending-record tail on the seek-cleared state. -/
theorem gzseek64_lazy (s : GzSt) (offset : Int) (whence : Nat)
    (hmode : s.mode = GzMode.read ∨ s.mode = GzMode.write)
    (herr : s.err = Z_OK ∨ s.err = Z_BUF_ERROR)
    (hw : whence = SEEK_SET ∨ whence = SEEK_CUR)
    (hnofast : ¬(s.mode = GzMode.read ∧ s.how = GzHow.copy))
    (hfwd : s.pos ≤ seekTarget s offset whence) :
    gzseek64 s offset whence =
      gzseekSkip { s with seek := false } (seekTarget s offset whence - s.pos) := by
  rw [gzseek64_norm s offset whence hmode herr hw]
  have hneg : ¬(seekTarget s offset whence - s.pos < 0) := by omega
  have hfast : ¬(({ s with seek := false } : GzSt).mode = GzMode.read ∧
      ({ s with seek := false } : GzSt).how = GzHow.copy ∧
      0 ≤ ({ s with seek := false } : GzSt).pos +
        (seekTarget s offset whence - s.pos)) := by
    intro h
    exact hnofast ⟨h.1, h.2.1⟩
  rw [seekCore, if_neg hfast, if_neg (by simpa using hneg)]

/-- C3: gzseek64 normalises Start offsets to a delta from the current
position, folds in a pending deferred skip, and on the lazy path returns
the target position with the non-zero residual (after consuming buffered
output) recorded as the pending seek and no descriptor change; it fails
with -1 on an incompatible mode, a fatal pending error, an unsupported
whence, a backward target in write mode, or a target before byte 0. -/
theorem C3_gzseek64_spec (s : GzSt) (offset : Int) (whence : Nat) (hpos : 0 ≤ s.pos) :
    (s.mode = GzMode.none → gzseek64 s offset whence = (s, -1)) ∧
    (s.err ≠ Z_OK → s.err ≠ Z_BUF_ERROR → gzseek64 s offset whence = (s, -1)) ∧
    (whence ≠ SEEK_SET → whence ≠ SEEK_CUR → gzseek64 s offset whence = (s, -1)) ∧
    (s.mode = GzMode.write → s.err = Z_OK ∨ s.err = Z_BUF_ERROR →
      whence = SEEK_SET ∨ whence = SEEK_CUR →
      seekTarget s offset whence < s.pos →
      gzseek64 s offset whence = ({ s with seek := false }, -1)) ∧
    (s.mode = GzMode.read → s.err = Z_OK ∨ s.err = Z_BUF_ERROR →
      whence = SEEK_SET ∨ whence = SEEK_CUR →
      seekTarget s offset whence < 0 →
      gzseek64 s offset whence = ({ s with seek := false }, -1)) ∧
    (s.mode = GzMode.read ∨ s.mode = GzMode.write →
      s.err = Z_OK ∨ s.err = Z_BUF_ERROR →
      whence = SEEK_SET ∨ whence = SEEK_CUR →
      ¬(s.mode = GzMode.read ∧ s.how = GzHow.copy) →
      s.pos ≤ seekTarget s offset whence →
      (gzseek64 s offset whence).2 = seekTarget s offset whence ∧
      (gzseek64 s offset whence).1.fd = s.fd ∧
      ((gzseek64 s offset whence).1.seek = true ↔ seekResid s offset whence ≠ 0) ∧
      (seekResid s offset whence ≠ 0 →
        (gzseek64 s offset whence).1.skip = seekResid s offset whence)) := by
  refine ⟨fun h => by simp [gzseek64, h], fun h1 h2 => ?_, fun h1 h2 => ?_,
    fun hm he hw hlt => ?_, fun hm he hw hlt => ?_, fun hm he hw hnf hge => ?_⟩
  · by_cases hmd : s.mode ≠ GzMode.read ∧ s.mode ≠ GzMode.write
    · simp [gzseek64, hmd]
    · simp [gzseek64, hmd, h1, h2]
  · by_cases hmd : s.mode ≠ GzMode.read ∧ s.mode ≠ GzMode.write
    · simp [gzseek64, hmd]
    · by_cases hef : s.err ≠ Z_OK ∧ s.err ≠ Z_BUF_ERROR
      · simp [gzseek64, hmd, hef]
      · simp [gzseek64, hmd, hef, h1, h2]
  · rw [gzseek64_norm s offset whence (Or.inr hm) he hw]
    have hd : seekTarget s offset whence - s.pos < 0 := by omega
    simp [seekCore, hm, hd]
  · rw [gzseek64_norm s offset whence (Or.inl hm) he hw]
    have hd : seekTarget s offset whence - s.pos < 0 := by omega
    have hf3 : ¬(0 ≤ s.pos + (seekTarget s offset whence - s.pos)) := by omega
    have harg : seekTarget s offset whence - s.pos + s.pos = seekTarget s offset whence := by
      ring
    simp [seekCore, hm, hd, hf3, harg, hlt]
  · rw [gzseek64_lazy s offset whence hm he hw hnf hge]
    have hoff : 0 ≤ seekTarget s offset whence - s.pos := by omega
    have hsp := gzseekSkip_spec { s with seek := false }
      (seekTarget s offset whence - s.pos) hoff rfl
    have hres : (if ({ s with seek := false } : GzSt).mode = GzMode.read then
        seekTarget s offset whence - s.pos -
          min ((({ s with seek := false } : GzSt).outWin.length : Int))
            (seekTarget s offset whence - s.pos)
      else seekTarget s offset whence - s.pos) = seekResid s offset whence := by
      simp [seekResid]
    have h6 := hsp.2.2.2.2.2.1
    have h7 := hsp.2.2.2.2.2.2
    rw [hres] at h6 h7
    refine ⟨?_, ?_, ?_, fun hr => (h6 hr).2⟩
    · rw [hsp.1]
      simp
    · simpa using hsp.2.1
    · constructor
      · intro hx
        by_cases hr : seekResid s offset whence = 0
        · rw [h7 hr] at hx
          simp at hx
        · exact hr
      · exact fun hr => (h6 hr).1

/-- C3 witness: on a fresh read handle, Seek(7, Start) returns 7 and
records a pending skip of 7. -/
theorem C3_gzseek64_spec_witness :
    (gzseek64 (gzOpen GzMode.read "f" []) 7 SEEK_SET).2 = 7 ∧
    (gzseek64 (gzOpen GzMode.read "f" []) 7 SEEK_SET).1.skip = 7 := by
  have h := (C3_gzseek64_spec (gzOpen GzMode.read "f" []) 7 SEEK_SET
    (by decide)).2.2.2.2.2 (Or.inl (by decide)) (Or.inl (by decide)) (Or.inl rfl)
    (by decide) (by decide)
  refine ⟨by rw [h.1]; decide, by rw [h.2.2.2 (by decide)]; decide⟩

/-- C10: Tell returns the logical position plus the pending deferred skip;
in particular after a lazy Seek it returns exactly what Seek returned,
with the descriptor untouched. -/
theorem C10_tell_pending (s : GzSt) (offset : Int) (whence : Nat)
    (hmode : s.mode = GzMode.read ∨ s.mode = GzMode.write) :
    gztell64 s = s.pos + (if s.seek then s.skip else 0) ∧
    (s.err = Z_OK ∨ s.err = Z_BUF_ERROR →
      whence = SEEK_SET ∨ whence = SEEK_CUR →
      ¬(s.mode = GzMode.read ∧ s.how = GzHow.copy) →
      s.pos ≤ seekTarget s offset whence →
      gztell64 (gzseek64 s offset whence).1 = (gzseek64 s offset whence).2 ∧
      (gzseek64 s offset whence).1.fd = s.fd) := by
  have hm : ¬(s.mode ≠ GzMode.read ∧ s.mode ≠ GzMode.write) := by
    rcases hmode with h | h <;> simp [h]
  refine ⟨by simp [gztell64, hm], fun he hw hnf hge => ?_⟩
  rw [gzseek64_lazy s offset whence hmode he hw hnf hge]
  have hoff : 0 ≤ seekTarget s offset whence - s.pos := by omega
  have hsp := gzseekSkip_spec { s with seek := false }
    (seekTarget s offset whence - s.pos) hoff rfl
  have hmd := hsp.2.2.1
  have hm1 : ¬((gzseekSkip { s with seek := false }
      (seekTarget s offset whence - s.pos)).1.mode ≠ GzMode.read ∧
      (gzseekSkip { s with seek := false }
        (seekTarget s offset whence - s.pos)).1.mode ≠ GzMode.write) := by
    rw [hmd]
    simpa using hm
  refine ⟨?_, by simpa using hsp.2.1⟩
  rw [gztell64, if_neg hm1, hsp.2.2.2.2.1, hsp.1]

/-- C10 witness: a lazy Seek then Tell on a fresh read handle. -/
theorem C10_tell_pending_witness :
    gztell64 (gzseek64 (gzOpen GzMode.read "f" []) 9 SEEK_SET).1 =
      (gzseek64 (gzOpen GzMode.read "f" []) 9 SEEK_SET).2 :=
  (((C10_tell_pending (gzOpen GzMode.read "f" []) 9 SEEK_SET (Or.inl (by decide))).2
    (Or.inl (by decide)) (Or.inl rfl) (by decide) (by decide))).1

/-- C9 witness: a concrete DataError after a stored message frees the old
message, zeroes the window and stores the path-prefixed text. -/
theorem C9_set_error_spec_witness :
    MemEv.freedMsg ∈
      (gzError { gzOpen GzMode.read "p" [] with msg := some "p: old", outWin := [9] }
        Z_DATA_ERROR (some "nuevo")).2 ∧
    (gzError { gzOpen GzMode.read "p" [] with msg := some "p: old", outWin := [9] }
        Z_DATA_ERROR (some "nuevo")).1.outWin = [] ∧
    (gzError { gzOpen GzMode.read "p" [] with msg := some "p: old", outWin := [9] }
        Z_DATA_ERROR (some "nuevo")).1.msg = some "p: nuevo" := by
  have h := C9_set_error_spec
    { gzOpen GzMode.read "p" [] with msg := some "p: old", outWin := [9] }
    Z_DATA_ERROR "nuevo" "p: old" (Or.inl rfl)
  exact ⟨(h.1 rfl (by decide)).1, (h.2.2.1 (by decide) (by decide)).1,
    (h.2.2.2.1 (by decide))⟩

/-- One Z_NO_FLUSH pass of the gz_comp loop from a quiescent state: the
engine absorbs the whole input window, emits nothing, and nothing reaches
the descriptor. -/
theorem gzCompLoop_noflush (fuel : Nat) (s : GzSt) (h : WQuiet s) :
    gzCompLoop (fuel + 1) s Z_NO_FLUSH Z_OK =
      some ({ s with
        dst := ⟨s.dst.acc ++ s.strmIn, [], false⟩,
        strmIn := [], inStart := s.inStart + s.strmIn.length }, Z_OK) := by
  obtain ⟨hdir, hsz, hrt, hno, hop, hoq, hfin⟩ := h
  have hsz0 : ¬(s.size - s.nextOut = 0) := by omega
  have hsz1 : ¬(s.size = 0) := by omega
  simp [gzCompLoop, dflate, hsz1, hno, hop, hoq, hfin, hsz0, Z_NO_FLUSH, Z_FINISH,
    Z_STREAM_ERROR, Z_OK]

/-- gz_comp with Z_NO_FLUSH from a quiescent state absorbs the input
window into the engine. -/
theorem gzComp_noflush (fuel : Nat) (s : GzSt) (h : WQuiet s) :
    gzComp (fuel + 1) s Z_NO_FLUSH =
      some ({ s with
        dst := ⟨s.dst.acc ++ s.strmIn, [], false⟩,
        strmIn := [], inStart := s.inStart + s.strmIn.length }, 0) := by
  obtain ⟨hdir, hsz, hrt, hno, hop, hoq, hfin⟩ := h
  have hsz' : ¬(s.size = 0) := by omega
  rw [gzComp]
  simp only [hsz', if_false, hdir, hrt, Bool.false_eq_true, ite_false,
    gzCompLoop_noflush fuel s ⟨hdir, hsz, hrt, hno, hop, hoq, hfin⟩]
  simp [Z_NO_FLUSH, Z_FINISH, Z_OK]

/-- A small gz_write request with an empty input window: one pass of the
copy loop buffers the whole request without compressing. -/
theorem gzWriteSmallLoop_once (fuel : Nat) (s : GzSt) (buf : List Nat)
    (h : WQuiet s) (hin : s.strmIn = []) (hb : buf ≠ []) (hlen : buf.length < s.size) :
    gzWriteSmallLoop (fuel + 1) s buf =
      some ({ s with inStart := 0, strmIn := buf, pos := s.pos + buf.length }, true) := by
  obtain ⟨hdir, hsz, hrt, hno, hop, hoq, hfin⟩ := h
  have hmin : min s.size buf.length = buf.length := by omega
  have hns : ¬(s.size < 0) := by omega
  simp [gzWriteSmallLoop, hin, hmin, hns]

/-- The large-request loop of gz_write absorbs the whole caller buffer
into the engine in UINT_MAX-bounded chunks, leaving the rest of the
handle alone. -/
theorem gzWriteLargeLoop_run : ∀ (fuel : Nat) (s : GzSt) (buf : List Nat),
    WQuiet s → s.strmIn = [] → 0 ≤ s.pos → buf ≠ [] → buf.length ≤ fuel →
    ∃ s', gzWriteLargeLoop fuel s buf = some (s', true) ∧
      s'.dst = ⟨s.dst.acc ++ buf, [], false⟩ ∧ s'.strmIn = [] ∧
      s'.pos = s.pos + buf.length ∧
      s'.mode = s.mode ∧ s'.size = s.size ∧ s'.direct = s.direct ∧
      s'.err = s.err ∧ s'.fd = s.fd ∧ s'.reset = s.reset ∧
      s'.nextOut = s.nextOut ∧ s'.outPend = s.outPend ∧ s'.seek = s.seek ∧
      s'.eof = s.eof ∧ s'.how = s.how ∧ s'.outWin = s.outWin ∧
      s'.outStart = s.outStart ∧ s'.msg = s.msg ∧ s'.past = s.past := by
  intro fuel
  induction fuel with
  | zero =>
    intro s buf h hin hpos hb hf
    have : buf.length = 0 := by omega
    simp_all
  | succ fuel ih =>
    intro s buf h hin hpos hb hf
    obtain ⟨hdir, hsz, hrt, hno, hop, hoq, hfin⟩ := h
    have hbl : buf.length ≠ 0 := by simpa using hb
    have hn1 : 1 ≤ min UINT_MAX buf.length := by
      simp only [UINT_MAX]
      omega
    simp only [gzWriteLargeLoop]
    set s1 : GzSt := { s with
      strmIn := List.take (min UINT_MAX buf.length) buf, inStart := 0,
      pos := s.pos + ((min UINT_MAX buf.length : Nat) : Int) } with hs1
    have hq1 : WQuiet s1 := ⟨hdir, hsz, hrt, hno, hop, hoq, hfin⟩
    have hcomp := gzComp_noflush fuel s1 hq1
    have hnpos : ¬(s1.pos < ((min UINT_MAX buf.length : Nat) : Int)) := by
      rw [hs1]
      simp
      omega
    rw [if_neg hnpos, hcomp]
    dsimp only
    rw [if_neg (by decide : ¬((0 : Int) = -1))]
    by_cases hrest : (List.drop (min UINT_MAX buf.length) buf).length = 0
    · rw [if_neg (fun hx => hx hrest)]
      have hmin : min UINT_MAX buf.length = buf.length := by
        have : buf.length - min UINT_MAX buf.length = 0 := by simpa using hrest
        omega
      refine ⟨_, rfl, ?_, rfl, ?_, rfl, rfl, rfl, rfl, rfl, rfl, rfl, rfl, rfl, rfl,
        rfl, rfl, rfl, rfl, rfl⟩
      all_goals simp [hs1, hmin]
    · rw [if_pos hrest]
      obtain ⟨s3, heq3, hdst3, hsin3, hpos3, hf1, hf2, hf3, hf4, hf5, hf6, hf7, hf8,
          hf9, hf10, hf11, hf12, hf13, hf14, hf15⟩ :=
        ih ({ s1 with
            dst := ⟨s1.dst.acc ++ s1.strmIn, [], false⟩, strmIn := [],
            inStart := s1.inStart + s1.strmIn.length })
          (List.drop (min UINT_MAX buf.length) buf)
          ⟨hdir, hsz, hrt, hno, hop, rfl, rfl⟩ rfl
          (by simp [hs1]; omega)
          (by
            intro hx
            rw [hx] at hrest
            simp at hrest)
          (by simp; omega)
      refine ⟨s3, heq3, ?_, hsin3, ?_, hf1, hf2, hf3, hf4, hf5, hf6, hf7, hf8, hf9,
        hf10, hf11, hf12, hf13, hf14, hf15⟩
      · rw [hdst3]
        simp [hs1]
      · rw [hpos3]
        simp [hs1]
/-- gz_write on a fresh (unallocated, quiescent) write handle delivers
the full request: small requests stay buffered in the input window, large
ones are absorbed by the engine; nothing reaches the descriptor yet. -/
theorem gzWrite_run (fuel : Nat) (s : GzSt) (S : List Nat)
    (hS : S ≠ []) (hfuel : S.length + 1 ≤ fuel)
    (hsz0 : s.size = 0) (hwant : 0 < s.want) (hdir : s.direct = false)
    (hrt : s.reset = false) (hseek : s.seek = false) (hin : s.strmIn = [])
    (hpos : 0 ≤ s.pos) :
    ∃ w A B, gzWrite fuel s S = some (w, S.length) ∧ A ++ B = S ∧
      w.dst = ⟨A, [], false⟩ ∧ w.strmIn = B ∧
      w.direct = false ∧ w.size = s.want ∧ w.reset = false ∧ w.nextOut = 0 ∧
      w.outPend = [] ∧ w.seek = false ∧ w.err = s.err ∧ w.mode = s.mode ∧
      w.fd = s.fd ∧ w.pos = s.pos + S.length ∧ w.eof = s.eof ∧ w.how = s.how := by
  obtain ⟨f', rfl⟩ : ∃ f', fuel = f' + 1 := ⟨fuel - 1, by omega⟩
  have hbne : ¬(S.length = 0) := by simpa using hS
  have hgi : gzInit s = { s with
      dst := dReset, size := s.want, nextOut := 0, outPend := [] } := by
    simp [gzInit, hdir]
  have hq : WQuiet { s with
      seek := false, dst := dReset, size := s.want, nextOut := 0, outPend := [] } :=
    ⟨hdir, by simpa using hwant, hrt, rfl, rfl, rfl, rfl⟩
  rw [gzWrite]
  simp only [hbne, if_false, hsz0, if_true, hgi, hseek, Bool.false_eq_true, ite_false]
  by_cases hsm : S.length < s.want
  · have hsmall := gzWriteSmallLoop_once f' _ S hq (by simpa using hin) hS
      (by simpa using hsm)
    rw [if_pos (show S.length < s.want from hsm), hsmall]
    refine ⟨{ s with
        seek := false, dst := dReset, size := s.want, nextOut := 0, outPend := [],
        inStart := 0, strmIn := S, pos := s.pos + S.length },
      [], S, by simp, rfl, rfl, rfl, hdir, rfl, hrt, rfl, rfl, rfl, rfl,
      rfl, rfl, rfl, rfl, rfl⟩
  · rw [if_neg (show ¬(S.length < s.want) from hsm)]
    rw [if_neg (show ¬(s.strmIn.length ≠ 0) by simp [hin])]
    dsimp only
    rw [if_neg (by decide : ¬((0 : Int) = -1))]
    obtain ⟨w, heq, hdst, hsin, hps, hm1, hm2, hm3, hm4, hm5, hm6, hm7, hm8, hm9,
        hm10, hm11, hm12, hm13, hm14, hm15⟩ :=
      gzWriteLargeLoop_run (f' + 1) { s with
          seek := false, dst := dReset, size := s.want, nextOut := 0, outPend := [] } S
        hq (by simpa using hin) (by simpa using hpos) hS (by omega)
    rw [heq]
    refine ⟨w, S, [], ?_, by simp, ?_, ?_, hm3.trans hdir, hm2, hm6.trans hrt, hm7,
      hm8, hm9, hm4, hm1, hm5, ?_, hm10, hm11⟩
    · simp
    · rw [hdst]
      simp [dReset]
    · rw [hsin]
    · rw [hps]

/-- The Z_FINISH drain of the gz_comp loop: once the engine is in its
finish phase with the input window empty, the loop writes the pending
window and the whole remaining encoded queue to the descriptor in
buffer-size chunks and reports Z_STREAM_END. -/
theorem gzCompLoop_finish : ∀ (fuel : Nat) (s : GzSt) (R : List Nat) (ret : Int),
    s.dst = ⟨[], R, true⟩ → s.strmIn = [] → 0 < s.size →
    s.nextOut = s.outPend.length → s.outPend.length ≤ s.size →
    (ret = Z_STREAM_END ∧ R = [] ∨
      ret = Z_OK ∧ R ≠ [] ∧ s.outPend.length = s.size) →
    R.length + 2 ≤ fuel →
    ∃ s', gzCompLoop fuel s Z_FINISH ret = some (s', Z_STREAM_END) ∧
      s'.fd.content = s.fd.content ++ s.outPend ++ R := by
  intro fuel
  induction fuel with
  | zero => intro s R ret _ _ _ _ _ _ hf; omega
  | succ fuel ih =>
    intro s R ret hdst hin hsz hno hple hcase hf
    rcases hcase with ⟨hret, hR⟩ | ⟨hret, hR, hfull⟩
    · subst hret hR
      by_cases hpe : s.outPend.length = 0
      · have hpnil : s.outPend = [] := by simpa using hpe
        by_cases hao : s.size - s.nextOut = 0
        · refine ⟨{ s with nextOut := 0, dst := ⟨[], [], true⟩ }, ?_, by simp [hpnil]⟩
          simp [gzCompLoop, dflate, hdst, hin, hpnil, hao, Z_FINISH, Z_NO_FLUSH,
            Z_STREAM_END, Z_STREAM_ERROR]
        · refine ⟨{ s with dst := ⟨[], [], true⟩ }, ?_, by simp [hpnil]⟩
          simp [gzCompLoop, dflate, hdst, hin, hpnil, hao, Z_FINISH, Z_NO_FLUSH,
            Z_STREAM_END, Z_STREAM_ERROR]
      · by_cases hao : s.size - s.nextOut = 0
        · refine ⟨{ s with
              fd := fdWrite s.fd s.outPend
              outPend := []
              nextOut := 0
              dst := ⟨[], [], true⟩ }, ?_, by simp [fdWrite]⟩
          simp [gzCompLoop, dflate, hdst, hin, hpe, hao, Z_FINISH, Z_NO_FLUSH,
            Z_STREAM_END, Z_STREAM_ERROR]
        · refine ⟨{ s with
              fd := fdWrite s.fd s.outPend
              outPend := []
              dst := ⟨[], [], true⟩ }, ?_, by simp [fdWrite]⟩
          simp [gzCompLoop, dflate, hdst, hin, hpe, hao, Z_FINISH, Z_NO_FLUSH,
            Z_STREAM_END, Z_STREAM_ERROR]
    · subst hret
      have hao : s.size - s.nextOut = 0 := by omega
      have hpe : ¬s.outPend.length = 0 := by omega
      have hRl : ¬R.length = 0 := by simpa using hR
      have hstep : gzCompLoop (fuel + 1) s Z_FINISH Z_OK =
          gzCompLoop fuel { s with
            fd := fdWrite s.fd s.outPend, outPend := R.take s.size,
            nextOut := min s.size R.length, dst := ⟨[], R.drop s.size, true⟩,
            strmIn := [] }
            Z_FINISH (if R.length ≤ s.size then Z_STREAM_END else Z_OK) := by
        simp only [gzCompLoop, hao, hdst, hin]
        simp [dflate, hpe, hRl, hsz.ne', Z_FINISH, Z_NO_FLUSH, Z_STREAM_END,
          Z_STREAM_ERROR, Nat.min_def]
        rw [if_neg (show ¬((if R.length ≤ s.size then (1 : Int) else Z_OK) = -2) by
          split_ifs <;> simp [Z_OK])]
        rw [if_neg (show ¬((if s.size ≤ R.length then s.size else R.length) = 0) by
          split_ifs <;> omega)]
      rw [hstep]
      obtain ⟨s', heq, hc⟩ := ih
        { s with
          fd := fdWrite s.fd s.outPend, outPend := R.take s.size,
          nextOut := min s.size R.length, dst := ⟨[], R.drop s.size, true⟩,
          strmIn := [] }
        (R.drop s.size) (if R.length ≤ s.size then Z_STREAM_END else Z_OK)
        rfl rfl (by simpa using hsz) (by simp [Nat.min_def]) (by simp)
        (by
          by_cases hRs : R.length ≤ s.size
          · exact Or.inl ⟨if_pos hRs, by
              rw [List.drop_eq_nil_iff]
              simpa using hRs⟩
          · refine Or.inr ⟨if_neg hRs, ?_, ?_⟩
            · intro hx
              rw [List.drop_eq_nil_iff] at hx
              exact hRs hx
            · simp
              omega)
        (by simp; omega)
      refine ⟨s', heq, ?_⟩
      rw [hc]
      simp [fdWrite, List.append_assoc]

/-- gz_comp with Z_FINISH from a buffering writer state: the engine's
absorbed bytes and the input window are encoded as one member and written
in full to the descriptor. -/
theorem gzComp_finish (fuel : Nat) (s : GzSt) (A B : List Nat)
    (hdst : s.dst = ⟨A, [], false⟩) (hin : s.strmIn = B)
    (hsz : 0 < s.size) (hdir : s.direct = false) (hrt : s.reset = false)
    (hno : s.nextOut = 0) (hop : s.outPend = [])
    (hfuel : (specEncode (A ++ B)).length + 3 ≤ fuel) :
    ∃ s', gzComp fuel s Z_FINISH = some (s', 0) ∧
      s'.fd.content = s.fd.content ++ specEncode (A ++ B) := by
  obtain ⟨f', rfl⟩ : ∃ f', fuel = f' + 1 := ⟨fuel - 1, by omega⟩
  have hMlen : (specEncode (A ++ B)).length = 10 + A.length + B.length := by
    simp [specEncode, leBytes]
    omega
  have hstep : gzCompLoop (f' + 1) s Z_FINISH Z_OK =
      gzCompLoop f' { s with
        fd := s.fd, outPend := (specEncode (A ++ B)).take s.size,
        nextOut := min s.size (specEncode (A ++ B)).length,
        dst := ⟨[], (specEncode (A ++ B)).drop s.size, true⟩,
        strmIn := [], inStart := s.inStart + B.length }
        Z_FINISH
        (if (specEncode (A ++ B)).length ≤ s.size then Z_STREAM_END else Z_OK) := by
    simp only [gzCompLoop, hdst, hin, hno, hop]
    simp [dflate, hdst, hin, hno, hop, hsz.ne', Z_FINISH, Z_NO_FLUSH,
      Z_STREAM_END, Z_STREAM_ERROR, Z_OK, Nat.min_def]
    rw [if_neg (show ¬((if (specEncode (A ++ B)).length ≤ s.size then (1 : Int)
        else 0) = -2) by split_ifs <;> simp)]
    rw [if_neg (show ¬((if s.size ≤ (specEncode (A ++ B)).length then s.size
        else (specEncode (A ++ B)).length) = 0) by split_ifs <;> omega)]
  obtain ⟨s', heq, hc⟩ := gzCompLoop_finish f'
    { s with
      fd := s.fd, outPend := (specEncode (A ++ B)).take s.size,
      nextOut := min s.size (specEncode (A ++ B)).length,
      dst := ⟨[], (specEncode (A ++ B)).drop s.size, true⟩,
      strmIn := [], inStart := s.inStart + B.length }
    ((specEncode (A ++ B)).drop s.size)
    (if (specEncode (A ++ B)).length ≤ s.size then Z_STREAM_END else Z_OK)
    rfl rfl (by simpa using hsz) (by simp [Nat.min_def]) (by simp)
    (by
      by_cases hMs : (specEncode (A ++ B)).length ≤ s.size
      · exact Or.inl ⟨if_pos hMs, by rw [List.drop_eq_nil_iff]; simpa using hMs⟩
      · refine Or.inr ⟨if_neg hMs, ?_, ?_⟩
        · intro hx
          rw [List.drop_eq_nil_iff] at hx
          exact hMs hx
        · simp
          omega)
    (by simp; omega)
  rw [hdir, hrt] at hstep heq
  refine ⟨{ s' with reset := true }, ?_, ?_⟩
  · rw [gzComp]
    simp only [hsz.ne', ite_false, hdir, Bool.false_eq_true, if_false, hrt,
      false_and, hstep, heq]
    simp [Z_FINISH, Z_STREAM_END]
  · show s'.fd.content = _
    rw [hc]
    simp

/-- gzclose_w on a buffering writer with no pending seek: the member for
the absorbed bytes plus the input window is written to the descriptor in
full and the close reports Z_OK. -/
theorem gzcloseW_run (fuel : Nat) (s : GzSt) (A B : List Nat)
    (hmode : s.mode = GzMode.write) (hseek : s.seek = false)
    (hdst : s.dst = ⟨A, [], false⟩) (hin : s.strmIn = B)
    (hsz : 0 < s.size) (hdir : s.direct = false) (hrt : s.reset = false)
    (hno : s.nextOut = 0) (hop : s.outPend = [])
    (hfuel : (specEncode (A ++ B)).length + 3 ≤ fuel) :
    ∃ s' effs, gzcloseW fuel s = some (s', Z_OK, effs) ∧
      s'.fd.content = s.fd.content ++ specEncode (A ++ B) := by
  obtain ⟨s2, heq, hc⟩ := gzComp_finish fuel s A B hdst hin hsz hdir hrt hno hop hfuel
  refine ⟨gzErr s2 Z_OK none,
    (if s2.size ≠ 0 then
      (if ¬s2.direct then [CloseEff.endDeflate, CloseEff.freeOut] else []) ++
        [CloseEff.freeIn]
    else []) ++ [CloseEff.freePath, CloseEff.closeFd, CloseEff.freeState],
    ?_, ?_⟩
  · rw [gzcloseW]
    simp only [hmode, hseek, Bool.false_eq_true, if_false, ite_false, ne_eq,
      not_true_eq_false, heq]
    simp
  · rw [(gzErr_fields s2 Z_OK none).2.1]
    exact hc

/-- leBytes always produces exactly `k` bytes. -/
theorem leBytes_length : ∀ (k n : Nat), (leBytes k n).length = k
  | 0, _ => rfl
  | k + 1, n => by simp [leBytes, leBytes_length k]

/-- leVal inverts leBytes on values that fit. -/
theorem leVal_leBytes : ∀ (k n : Nat), n < 256 ^ k → leVal (leBytes k n) = n
  | 0, n, h => by simp at h; simp [leBytes, leVal, h]
  | k + 1, n, h => by
    have hd : n / 256 < 256 ^ k := by
      rw [Nat.div_lt_iff_lt_mul (by norm_num)]
      calc n < 256 ^ (k + 1) := h
      _ = 256 ^ k * 256 := by ring
    simp [leBytes, leVal, leVal_leBytes k (n / 256) hd]
    omega

/-- The member produced by the engine is the 10-byte prefix then the
payload. -/
theorem specEncode_length (S : List Nat) : (specEncode S).length = S.length + 10 := by
  simp [specEncode, leBytes_length]
  omega

/-- Dropping the member prefix leaves the payload. -/
theorem specEncode_drop_ten (S : List Nat) : (specEncode S).drop 10 = S := by
  have h8 : (leBytes 8 S.length).length = 8 := leBytes_length 8 S.length
  simp [specEncode]
  exact List.drop_left' h8

/-- inflate on a state holding the complete member prefix: emit what the
input, the output window and the owed payload allow. -/
theorem iflate_full (hdr : List Nat) (r : Nat) (input : List Nat) (av : Nat)
    (hh1 : hdr.length = 10) (hh2 : hdr.getD 0 0 = 31) (hh3 : hdr.getD 1 0 = 139) :
    iflate ⟨hdr, some r⟩ input av =
      (⟨hdr, some (r - min av (min input.length r))⟩,
       min av (min input.length r),
       input.take (min av (min input.length r)),
       if r - min av (min input.length r) = 0 then Z_STREAM_END else Z_OK) := by
  rw [iflate]
  simp only [hh1, Nat.sub_self, List.take_zero, List.append_nil]
  rw [if_neg (by simp [hh1])]
  rw [if_neg (by simp only [not_not]; exact ⟨hh2, hh3⟩)]
  simp

/-- One iteration of the gz_decomp loop from a mid-member configuration
with a non-empty input window, assuming the induction hypothesis for the
remaining fuel. -/
theorem gzDecompLoop_step (fuel : Nat)
    (ih : ∀ (s : GzSt) (P : List Nat) (av : Nat) (acc : List Nat) (ret : Int),
      RC s P → P ≠ [] → 0 < av → P.length + 1 ≤ fuel →
      DLRconc fuel s P av acc ret)
    (s : GzSt) (P : List Nat) (av : Nat) (acc : List Nat) (ret : Int)
    (hrc : RC s P) (hX : ¬s.strmIn.length = 0) (hav : 0 < av)
    (hf : P.length + 1 ≤ fuel + 1) :
    DLRconc (fuel + 1) s P av acc ret := by
  unfold DLRconc
  obtain ⟨hh1, hh2, hh3, hrem, hsplit, hfp0, hfpb, heof, herr, hsz⟩ := hrc
  have hist : s.ist = ⟨s.ist.hdr, some P.length⟩ := by
    rw [← hrem]
  have hXP : s.strmIn = P.take s.strmIn.length := by
    rw [← hsplit, List.take_left]
  have hXle : s.strmIn.length ≤ P.length := by
    rw [← hsplit]
    simp
  have hDrem : fdRemaining s = P.drop s.strmIn.length := by
    rw [← hsplit, List.drop_left]
  have hunfold : gzDecompLoop (fuel + 1) s av acc ret =
      if av - min av (min s.strmIn.length P.length) ≠ 0 ∧
          P.length - min av (min s.strmIn.length P.length) ≠ 0 then
        gzDecompLoop fuel
          { s with
            ist := ⟨s.ist.hdr, some (P.length - min av (min s.strmIn.length P.length))⟩,
            strmIn := s.strmIn.drop (min av (min s.strmIn.length P.length)) }
          (av - min av (min s.strmIn.length P.length))
          (acc ++ s.strmIn.take (min av (min s.strmIn.length P.length)))
          (if P.length - min av (min s.strmIn.length P.length) = 0 then
            Z_STREAM_END else Z_OK)
      else
        some (DecompRes.done
          { s with
            ist := ⟨s.ist.hdr, some (P.length - min av (min s.strmIn.length P.length))⟩,
            strmIn := s.strmIn.drop (min av (min s.strmIn.length P.length)) }
          (acc ++ s.strmIn.take (min av (min s.strmIn.length P.length)))
          (av - min av (min s.strmIn.length P.length))
          (if P.length - min av (min s.strmIn.length P.length) = 0 then
            Z_STREAM_END else Z_OK)) := by
    simp only [gzDecompLoop, hX, ite_false, if_false]
    rw [if_neg (by simp : ¬((0 : Int) = -1))]
    rw [hist, iflate_full s.ist.hdr P.length s.strmIn av hh1 hh2 hh3]
    rw [if_neg (show ¬((if P.length - min av (min s.strmIn.length P.length) = 0
        then Z_STREAM_END else Z_OK) = Z_STREAM_ERROR ∨
        (if P.length - min av (min s.strmIn.length P.length) = 0
        then Z_STREAM_END else Z_OK) = Z_NEED_DICT) by
      split_ifs <;> simp [Z_STREAM_END, Z_OK, Z_STREAM_ERROR, Z_NEED_DICT])]
    rw [if_neg (show ¬((if P.length - min av (min s.strmIn.length P.length) = 0
        then Z_STREAM_END else Z_OK) = Z_MEM_ERROR) by
      split_ifs <;> simp [Z_STREAM_END, Z_OK, Z_MEM_ERROR])]
    rw [if_neg (show ¬((if P.length - min av (min s.strmIn.length P.length) = 0
        then Z_STREAM_END else Z_OK) = Z_DATA_ERROR) by
      split_ifs <;> simp [Z_STREAM_END, Z_OK, Z_DATA_ERROR])]
    have hlt : (s.strmIn.take (min av (min s.strmIn.length P.length))).length =
        min av (min s.strmIn.length P.length) := by
      rw [List.length_take]
      omega
    dsimp only
    rw [hlt]
    rw [if_congr (and_congr_right fun _ => show
        ((if P.length - min av (min s.strmIn.length P.length) = 0 then Z_STREAM_END
          else Z_OK) ≠ Z_STREAM_END) ↔
        (P.length - min av (min s.strmIn.length P.length) ≠ 0) from by
      split_ifs with h
      · simp [h]
      · simp [h, Z_STREAM_END, Z_OK]) rfl rfl]
  by_cases hcont : av - min av (min s.strmIn.length P.length) ≠ 0 ∧
      P.length - min av (min s.strmIn.length P.length) ≠ 0
  · -- the window was exhausted before the member or the output filled:
    -- recurse on the remaining payload
    have hkX : min av (min s.strmIn.length P.length) = s.strmIn.length := by
      omega
    have hX1 : 1 ≤ s.strmIn.length := by omega
    rw [hunfold, if_pos hcont, hkX]
    rw [if_neg (show ¬(P.length - s.strmIn.length = 0) by omega)]
    obtain ⟨s', heq, hrc', hc1, hc2, hc3, hc4, hc5, hc6, hc7, hc8, hc9, hc10, hc11⟩ :=
      ih { s with
          ist := ⟨s.ist.hdr, some (P.length - s.strmIn.length)⟩,
          strmIn := s.strmIn.drop s.strmIn.length }
        (P.drop s.strmIn.length) (av - s.strmIn.length)
        (acc ++ s.strmIn.take s.strmIn.length) Z_OK
        (by
          refine ⟨by simpa using hh1, by simpa using hh2, by simpa using hh3,
            by simp, ?_, by simpa using hfp0, by simpa using hfpb, ?_,
            by simpa using herr, by simpa using hsz⟩
          · show s.strmIn.drop s.strmIn.length ++ fdRemaining _ = _
            rw [List.drop_length, List.nil_append]
            exact hDrem
          · intro hx
            exact heof (by simpa using hx))
        (by
          intro hx
          have hlx := congrArg List.length hx
          rw [List.length_drop, List.length_nil] at hlx
          omega)
        (by omega)
        (by
          rw [List.length_drop]
          omega)
    have hsum : s.strmIn.length + (min av P.length - s.strmIn.length) =
        min av P.length := by omega
    have htkX : s.strmIn.take s.strmIn.length = P.take s.strmIn.length := by
      have h := congrArg (List.take s.strmIn.length) hsplit
      rwa [List.take_append_of_le_length (le_refl _)] at h
    have hm : min (av - s.strmIn.length) (P.drop s.strmIn.length).length =
        min av P.length - s.strmIn.length := by
      rw [List.length_drop]
      omega
    have e1 : acc ++ s.strmIn.take s.strmIn.length ++
        (P.drop s.strmIn.length).take
          (min (av - s.strmIn.length) (P.drop s.strmIn.length).length) =
        acc ++ P.take (min av P.length) := by
      rw [List.append_assoc, htkX, hm]
      conv_rhs => rw [← hsum]
      rw [List.take_add]
    have e2 : av - s.strmIn.length -
        min (av - s.strmIn.length) (P.drop s.strmIn.length).length =
        av - min av P.length := by
      rw [List.length_drop]
      omega
    have hiff : ((P.drop s.strmIn.length).length ≤ av - s.strmIn.length) ↔
        (P.length ≤ av) := by
      rw [List.length_drop]
      omega
    have e3 : (if (P.drop s.strmIn.length).length ≤ av - s.strmIn.length then
        Z_STREAM_END else Z_OK) = (if P.length ≤ av then Z_STREAM_END else Z_OK) :=
      if_congr hiff rfl rfl
    have e4 : (P.drop s.strmIn.length).drop
        (min (av - s.strmIn.length) (P.drop s.strmIn.length).length) =
        P.drop (min av P.length) := by
      rw [List.drop_drop]
      congr 1
      rw [List.length_drop]
      omega
    rw [e1, e2, e3] at heq
    rw [e4] at hrc'
    exact ⟨s', heq, hrc', by simpa using hc1, by simpa using hc2,
      by simpa using hc3, by simpa using hc4, by simpa using hc5,
      by simpa using hc6, by simpa using hc7, by simpa using hc8,
      by simpa using hc9, by simpa using hc10, by simpa using hc11⟩
  · -- terminal: the output window filled or the member completed here
    rw [hunfold, if_neg hcont]
    have hk1 : min av (min s.strmIn.length P.length) ≤ av := by omega
    have hk2 : min av (min s.strmIn.length P.length) ≤ s.strmIn.length := by omega
    have hkm : min av P.length = min av (min s.strmIn.length P.length) := by omega
    have htk : s.strmIn.take (min av (min s.strmIn.length P.length)) =
        P.take (min av (min s.strmIn.length P.length)) := by
      have h := congrArg (List.take (min av (min s.strmIn.length P.length))) hsplit
      rwa [List.take_append_of_le_length hk2] at h
    have htd : s.strmIn.drop (min av (min s.strmIn.length P.length)) ++
        fdRemaining s = P.drop (min av (min s.strmIn.length P.length)) := by
      have h := congrArg (List.drop (min av (min s.strmIn.length P.length))) hsplit
      rwa [List.drop_append_of_le_length hk2] at h
    have hiff2 : (P.length - min av (min s.strmIn.length P.length) = 0) ↔
        (P.length ≤ av) := by omega
    have he3 : (if P.length - min av (min s.strmIn.length P.length) = 0 then
        Z_STREAM_END else Z_OK) = (if P.length ≤ av then Z_STREAM_END else Z_OK) :=
      if_congr hiff2 rfl rfl
    refine ⟨{ s with
        ist := ⟨s.ist.hdr, some (P.length - min av (min s.strmIn.length P.length))⟩,
        strmIn := s.strmIn.drop (min av (min s.strmIn.length P.length)) },
      ?_, ?_, rfl, rfl, rfl, rfl, rfl, rfl, rfl, rfl, rfl, rfl, rfl⟩
    · rw [htk, he3, hkm]
    · refine ⟨by simpa using hh1, by simpa using hh2, by simpa using hh3,
        ?_, ?_, by simpa using hfp0, by simpa using hfpb, ?_,
        by simpa using herr, by simpa using hsz⟩
      · simp
        omega
      · show s.strmIn.drop (min av (min s.strmIn.length P.length)) ++
          fdRemaining _ = _
        rw [hkm]
        have : fdRemaining { s with
            ist := ⟨s.ist.hdr, some (P.length - min av (min s.strmIn.length P.length))⟩,
            strmIn := s.strmIn.drop (min av (min s.strmIn.length P.length)) } =
            fdRemaining s := rfl
        rw [this, ← hkm] at *
        exact htd
      · intro hx
        show fdRemaining _ = []
        have hfe : fdRemaining { s with
            ist := ⟨s.ist.hdr, some (P.length - min av (min s.strmIn.length P.length))⟩,
            strmIn := s.strmIn.drop (min av (min s.strmIn.length P.length)) } =
            fdRemaining s := rfl
        rw [hfe]
        exact heof hx

/-- Taking more than the length takes everything. -/
theorem take_min_length (P : List Nat) (n : Nat) :
    P.take n = P.take (min n P.length) := by
  by_cases h : P.length ≤ n
  · rw [min_eq_right h, List.take_of_length_le h, List.take_length]
  · rw [min_eq_left (le_of_not_le h)]

/-- A refill iteration of the gz_decomp loop continues exactly as if the
loop had been entered on the refilled state. -/
theorem gzDecompLoop_refill (fuel : Nat) (s t : GzSt) (av : Nat)
    (acc : List Nat) (ret : Int) (h0 : s.strmIn.length = 0)
    (ha : gzAvail s = (t, 0)) (ht : ¬t.strmIn.length = 0) :
    gzDecompLoop (fuel + 1) s av acc ret =
      gzDecompLoop (fuel + 1) t av acc ret := by
  conv_lhs => rw [gzDecompLoop]
  conv_rhs => rw [gzDecompLoop]
  rw [if_pos h0, ha]
  conv_rhs => rw [if_neg ht]

/-- The gz_decomp loop from a mid-member configuration: the loop refills
the input window from the descriptor as needed and emits as much of the
remaining payload as the output window allows, with Z_STREAM_END exactly
when the member completes. -/
theorem gzDecompLoop_run : ∀ (fuel : Nat) (s : GzSt) (P : List Nat) (av : Nat)
    (acc : List Nat) (ret : Int),
    RC s P → P ≠ [] → 0 < av → P.length + 1 ≤ fuel →
    DLRconc fuel s P av acc ret := by
  intro fuel
  induction fuel with
  | zero =>
    intro s P av acc ret _ hP _ hfu
    omega
  | succ fuel ih =>
    intro s P av acc ret hrc hP hav hfu
    by_cases hX : s.strmIn.length = 0
    · obtain ⟨hh1, hh2, hh3, hrem, hsplit, hfp0, hfpb, heof, herr, hsz⟩ := hrc
      have hsn : s.strmIn = [] := by simpa using hX
      have hD : fdRemaining s = P := by
        rw [← hsplit, hsn, List.nil_append]
      have heo : s.eof = false := by
        cases he : s.eof
        · rfl
        · rw [← hD, heof he] at hP
          exact absurd rfl hP
      have hg : (P.take s.size).length = min s.size P.length := by
        rw [List.length_take]
      have hgn : ¬(P.take s.size).length = 0 := by
        rw [hg]
        have : P.length ≠ 0 := by simpa using hP
        omega
      have htn : ((s.fd.fpos + ((P.take s.size).length : Int))).toNat =
          s.fd.fpos.toNat + (P.take s.size).length := by omega
      have hdp : s.fd.content.drop (s.fd.fpos.toNat + (P.take s.size).length) =
          P.drop (min s.size P.length) := by
        rw [← List.drop_drop]
        show (fdRemaining s).drop _ = _
        rw [hD, hg]
      have hlenP : P.length = (fdRemaining s).length := by rw [hD]
      have hlenD : (fdRemaining s).length =
          s.fd.content.length - s.fd.fpos.toNat := by
        rw [fdRemaining, List.length_drop]
      have hD' : s.fd.content.drop s.fd.fpos.toNat = P := hD
      have hsplit1 : P.take s.size ++
          s.fd.content.drop ((s.fd.fpos + ((P.take s.size).length : Int)).toNat) =
          P := by
        rw [htn, hdp, take_min_length]
        exact List.take_append_drop _ P
      have hfpb1 : ((s.fd.fpos + ((P.take s.size).length : Int)).toNat) ≤
          s.fd.content.length := by
        rw [htn, hg]
        omega
      by_cases hshort : P.length < s.size
      · have havail : gzAvail s =
            ({ s with
                fd := ⟨s.fd.content, s.fd.fpos + ((P.take s.size).length : Int),
                  s.fd.log ++ [IOEv.rd s.size (P.take s.size)]⟩,
                eof := true,
                strmIn := P.take s.size }, 0) := by
          rw [gzAvail]
          rw [if_neg (by simp [herr, Z_OK])]
          rw [if_pos heo]
          simp only [gzLoad, fdRead, hsn, hD', hfp0, if_true, List.length_nil,
            Nat.sub_zero, List.nil_append]
          rw [if_pos (Or.inl (show (P.take s.size).length < s.size by
            rw [hg]; omega))]
          simp
        obtain ⟨s', heq, hrc', f1, f2, f3, f4, f5, f6, f7, f8, f9, f10, f11⟩ :=
          gzDecompLoop_step fuel ih
            { s with
              fd := ⟨s.fd.content, s.fd.fpos + ((P.take s.size).length : Int),
                s.fd.log ++ [IOEv.rd s.size (P.take s.size)]⟩,
              eof := true,
              strmIn := P.take s.size }
            P av acc ret
            ⟨hh1, hh2, hh3, hrem, hsplit1, by simp; omega, hfpb1,
              fun _ => show s.fd.content.drop _ = [] by
                rw [htn, hdp]
                have : min s.size P.length = P.length := by omega
                rw [this, List.drop_length],
              herr, hsz⟩
            hgn hav hfu
        have htrans : gzDecompLoop (fuel + 1) s av acc ret =
            gzDecompLoop (fuel + 1)
              { s with
                fd := ⟨s.fd.content, s.fd.fpos + ((P.take s.size).length : Int),
                  s.fd.log ++ [IOEv.rd s.size (P.take s.size)]⟩,
                eof := true,
                strmIn := P.take s.size }
              av acc ret :=
          gzDecompLoop_refill fuel s _ av acc ret hX havail hgn
        exact ⟨s', htrans.trans heq, hrc', f1, f2, f3, f4, f5, f6, f7, f8, f9,
          f10, f11⟩
      · have havail : gzAvail s =
            ({ s with
                fd := ⟨s.fd.content, s.fd.fpos + ((P.take s.size).length : Int),
                  s.fd.log ++ [IOEv.rd s.size (P.take s.size)]⟩,
                strmIn := P.take s.size }, 0) := by
          rw [gzAvail]
          rw [if_neg (by simp [herr, Z_OK])]
          rw [if_pos heo]
          simp only [gzLoad, fdRead, hsn, hD', hfp0, if_true, List.length_nil,
            Nat.sub_zero, List.nil_append]
          rw [if_neg (show ¬((P.take s.size).length < s.size ∨ s.size = 0) by
            rw [hg]; omega)]
          simp
        obtain ⟨s', heq, hrc', f1, f2, f3, f4, f5, f6, f7, f8, f9, f10, f11⟩ :=
          gzDecompLoop_step fuel ih
            { s with
              fd := ⟨s.fd.content, s.fd.fpos + ((P.take s.size).length : Int),
                s.fd.log ++ [IOEv.rd s.size (P.take s.size)]⟩,
              strmIn := P.take s.size }
            P av acc ret
            ⟨hh1, hh2, hh3, hrem, hsplit1, by simp; omega, hfpb1,
              fun hx => absurd (heo.symm.trans hx) (by simp),
              herr, hsz⟩
            hgn hav hfu
        have htrans : gzDecompLoop (fuel + 1) s av acc ret =
            gzDecompLoop (fuel + 1)
              { s with
                fd := ⟨s.fd.content, s.fd.fpos + ((P.take s.size).length : Int),
                  s.fd.log ++ [IOEv.rd s.size (P.take s.size)]⟩,
                strmIn := P.take s.size }
              av acc ret :=
          gzDecompLoop_refill fuel s _ av acc ret hX havail hgn
        exact ⟨s', htrans.trans heq, hrc', f1, f2, f3, f4, f5, f6, f7, f8, f9,
          f10, f11⟩
    · exact gzDecompLoop_step fuel ih s P av acc ret hrc hX hav hfu

/-- gz_decomp from a mid-member configuration: emits the due slice of the
remaining payload into the published output window and returns to LOOK
exactly when the member completed. -/
theorem gzDecomp_run (fuel : Nat) (s : GzSt) (P : List Nat) (av : Nat)
    (hrc : RC s P) (hP : P ≠ []) (hav : 0 < av) (hfu : P.length + 1 ≤ fuel) :
    ∃ s', gzDecomp fuel s av =
        some (s', P.take (min av P.length), 0,
          if P.length ≤ av then Z_STREAM_END else Z_OK) ∧
      RC s' (P.drop (min av P.length)) ∧
      s'.outWin = P.take (min av P.length) ∧ s'.outStart = 0 ∧
      s'.how = (if P.length ≤ av then GzHow.look else s.how) ∧
      s'.size = s.size ∧ s'.pos = s.pos ∧ s'.past = s.past ∧
      s'.mode = s.mode ∧ s'.seek = s.seek ∧ s'.want = s.want ∧
      s'.direct = s.direct := by
  have h := gzDecompLoop_run fuel s P av [] Z_OK hrc hP hav hfu
  unfold DLRconc at h
  obtain ⟨s2, heq, hrc', hf1, hf2, hf3, hf4, hf5, hf6, hf7, hf8, hf9, hf10,
    hf11⟩ := h
  rw [List.nil_append] at heq
  by_cases hend : P.length ≤ av
  · rw [if_pos hend] at heq ⊢
    refine ⟨{ s2 with
        outWin := P.take (min av P.length)
        outStart := 0
        how := GzHow.look }, ?_, ?_, rfl, rfl, by rw [if_pos hend], by simpa using hf3,
      by simpa using hf4, by simpa using hf5, by simpa using hf8,
      by simpa using hf9, by simpa using hf10, by simpa using hf11⟩
    · rw [gzDecomp, heq]
      simp [Z_STREAM_END]
    · obtain ⟨g1, g2, g3, g4, g5, g6, g7, g8, g9, g10⟩ := hrc'
      exact ⟨g1, g2, g3, g4, g5, g6, g7, g8, g9, by simpa using g10⟩
  · rw [if_neg hend] at heq ⊢
    refine ⟨{ s2 with
        outWin := P.take (min av P.length)
        outStart := 0 },
      ?_, ?_, rfl, rfl, by rw [if_neg hend]; simpa using hf2, by simpa using hf3,
      by simpa using hf4, by simpa using hf5, by simpa using hf8,
      by simpa using hf9, by simpa using hf10, by simpa using hf11⟩
    · rw [gzDecomp, heq]
      simp [Z_STREAM_END, Z_OK]
    · obtain ⟨g1, g2, g3, g4, g5, g6, g7, g8, g9, g10⟩ := hrc'
      exact ⟨g1, g2, g3, g4, g5, g6, g7, g8, g9, by simpa using g10⟩

/-- gz_fetch in GZIP mode from a mid-member configuration: one gz_decomp
pass fills the double-size output window (or finishes the member). -/
theorem gzFetch_gzip (fuel : Nat) (s : GzSt) (P : List Nat)
    (hrc : RC s P) (hP : P ≠ []) (hhow : s.how = GzHow.gzip)
    (hfu : P.length ≤ fuel) :
    ∃ s', gzFetch (fuel + 1) s = some (s', 0) ∧
      RC s' (P.drop (min (s.size * 2) P.length)) ∧
      s'.outWin = P.take (min (s.size * 2) P.length) ∧ s'.outStart = 0 ∧
      s'.how = (if P.length ≤ s.size * 2 then GzHow.look else GzHow.gzip) ∧
      s'.size = s.size ∧ s'.pos = s.pos ∧ s'.past = s.past ∧ s'.mode = s.mode ∧
      s'.seek = s.seek ∧ s'.want = s.want ∧ s'.direct = s.direct := by
  have hsz : 0 < s.size := hrc.2.2.2.2.2.2.2.2.2
  obtain ⟨s', heq, hrc', w1, w2, w3, w4, w5, w6, w7, w8, w9, w10⟩ :=
    gzDecomp_run (fuel + 1) s P (s.size * 2) hrc hP (by omega) (by omega)
  have hne : ¬(s'.outWin.length = 0 ∧ (¬s'.eof = true ∨ s'.strmIn.length ≠ 0)) := by
    intro hx
    rw [w1, List.length_take] at hx
    have hPlen : P.length ≠ 0 := by simpa using hP
    omega
  refine ⟨s', ?_, hrc', w1, w2, by rw [w3, hhow], w4, w5, w6, w7, w8, w9, w10⟩
  simp only [gzFetch, hhow]
  rw [heq]
  dsimp only
  rw [if_neg (show ¬((0 : Int) = -1) by decide)]
  rw [if_neg hne]

/-- gz_fetch in LOOK mode on a drained stream: the lookahead finds no
input, records end-of-file and returns with `how` still LOOK. -/
theorem gzFetch_drained (fuel : Nat) (s : GzSt)
    (hhow : s.how = GzHow.look) (hsz : 0 < s.size) (hin : s.strmIn = [])
    (hD : fdRemaining s = []) (herr : s.err = Z_OK) (hfp0 : 0 ≤ s.fd.fpos) :
    ∃ s', gzFetch (fuel + 1) s = some (s', 0) ∧ s'.how = GzHow.look ∧
      s'.eof = true ∧ s'.strmIn = [] ∧ s'.outWin = s.outWin ∧
      s'.pos = s.pos ∧ s'.past = s.past ∧ s'.err = Z_OK ∧
      s'.ist = s.ist ∧ s'.size = s.size ∧ s'.fd.content = s.fd.content ∧
      s'.fd.fpos = s.fd.fpos ∧ s'.mode = s.mode ∧ s'.seek = s.seek := by
  have hD' : s.fd.content.drop s.fd.fpos.toNat = [] := hD
  cases he : s.eof
  · have hav : gzAvail s = ({ s with
        fd := ⟨s.fd.content, s.fd.fpos, s.fd.log ++ [IOEv.rd s.size []]⟩,
        eof := true }, 0) := by
      rw [gzAvail]
      rw [if_neg (show ¬(s.err ≠ Z_OK ∧ s.err ≠ Z_BUF_ERROR) by simp [herr, Z_OK])]
      rw [if_pos he]
      simp only [gzLoad, fdRead, hin, hD', hfp0, if_true, List.length_nil,
        Nat.sub_zero, List.take_nil, List.nil_append]
      rw [if_pos (Or.inl hsz)]
      simp
    have hlook : gzLook s = ({ s with
        fd := ⟨s.fd.content, s.fd.fpos, s.fd.log ++ [IOEv.rd s.size []]⟩,
        eof := true }, 0) := by
      rw [gzLook]
      rw [if_neg hsz.ne']
      rw [if_pos (show s.strmIn.length < 2 by rw [hin]; decide)]
      rw [hav]
      dsimp only
      rw [if_neg (show ¬((0 : Int) = -1) by decide)]
      rw [if_pos (show ({ s with
          fd := ⟨s.fd.content, s.fd.fpos, s.fd.log ++ [IOEv.rd s.size []]⟩,
          eof := true } : GzSt).strmIn.length = 0 by simp [hin])]
    refine ⟨{ s with
        fd := ⟨s.fd.content, s.fd.fpos, s.fd.log ++ [IOEv.rd s.size []]⟩
        eof := true },
      ?_, hhow, rfl, hin, rfl, rfl, rfl, herr, rfl, rfl, rfl, rfl, rfl, rfl⟩
    simp [gzFetch, hhow, hlook]
  · have hlook : gzLook s = (s, 0) := by
      rw [gzLook]
      rw [if_neg hsz.ne']
      rw [if_pos (show s.strmIn.length < 2 by rw [hin]; decide)]
      rw [gzAvail]
      rw [if_neg (show ¬(s.err ≠ Z_OK ∧ s.err ≠ Z_BUF_ERROR) by simp [herr, Z_OK])]
      rw [if_neg (show ¬(s.eof = false) by simp [he])]
      dsimp only
      rw [if_neg (show ¬((0 : Int) = -1) by decide)]
      rw [if_pos (show s.strmIn.length = 0 by rw [hin]; rfl)]
    refine ⟨s, ?_, hhow, he, hin, rfl, rfl, rfl, herr, rfl, rfl, rfl, rfl, rfl,
      rfl⟩
    simp [gzFetch, hhow, hlook]

/-- The gz_read loop from a streaming configuration: with a request one
past the published window plus the remaining payload, it drains the
window, decodes the rest of the member (through the internal buffer for
small requests, directly for large ones) and stops at end of input with
the past-EOF flag set, returning exactly the remaining bytes. -/
theorem gzReadLoop_master : ∀ (fuel : Nat) (s : GzSt) (P W acc : List Nat),
    RC s P → s.outWin = W → W.length ≤ UINT_MAX →
    (P = [] → s.how = GzHow.look) → (P ≠ [] → s.how = GzHow.gzip) →
    2 * s.size ≤ UINT_MAX → W.length + 2 * P.length + 5 ≤ fuel →
    ∃ s', gzReadLoop fuel s (W.length + P.length + 1) acc =
        some ⟨s', acc ++ W ++ P, (acc ++ W ++ P).length⟩ ∧ s'.past = true := by
  intro fuel
  induction fuel with
  | zero =>
    intro s P W acc _ _ _ _ _ _ h
    omega
  | succ fuel ih =>
    intro s P W acc hrc hW hWle hlook hgzip hsz2 hfu
    obtain ⟨hh1, hh2, hh3, hrem, hsplit, hfp0, hfpb, heof, herr, hsz⟩ := hrc
    by_cases hWnil : W = []
    · subst hWnil
      simp only [List.length_nil, Nat.zero_add, List.append_nil] at hfu ⊢
      have hWe : s.outWin = [] := hW
      by_cases hPnil : P = []
      · subst hPnil
        simp only [List.length_nil, Nat.mul_zero, Nat.zero_add,
          Nat.add_zero, List.append_nil] at hfu ⊢
        have hsn : s.strmIn = [] := by
          have := congrArg List.length hsplit
          simp at this
          simpa using this.1
        have hfdr : fdRemaining s = [] := by
          have := congrArg List.length hsplit
          simp at this
          simpa [fdRemaining] using this.2
        cases he : s.eof
        · -- one empty lookahead records EOF, then the loop stops
          obtain ⟨s1, hfeq, g1, g2, g3, g4, g5, g6, g7, g8, g9, g10, g11, g12,
            g13⟩ := gzFetch_drained fuel s (hlook rfl) hsz hsn hfdr herr hfp0
          obtain ⟨f2, hf2⟩ : ∃ f2, fuel = f2 + 1 := ⟨fuel - 1, by omega⟩
          refine ⟨{ s1 with past := true }, ?_, rfl⟩
          simp only [gzReadLoop]
          rw [if_neg (show ¬(s.outWin.length ≠ 0) by simp [hWe])]
          rw [if_neg (show ¬(s.eof = true ∧ s.strmIn.length = 0) by simp [he])]
          rw [if_pos (Or.inl (hlook rfl))]
          rw [hfeq]
          dsimp only
          rw [if_neg (show ¬((0 : Int) = -1) by decide)]
          rw [hf2]
          simp only [gzReadLoop]
          rw [if_neg (show ¬(s1.outWin.length ≠ 0) by simp [g4.trans hWe])]
          rw [if_pos (show s1.eof = true ∧ s1.strmIn.length = 0 from
            ⟨g2, by simp [g3]⟩)]
        · -- already at EOF: stop with the past flag
          refine ⟨{ s with past := true }, ?_, rfl⟩
          simp only [gzReadLoop]
          rw [if_neg (show ¬(s.outWin.length ≠ 0) by simp [hWe])]
          rw [if_pos (show s.eof = true ∧ s.strmIn.length = 0 from
            ⟨he, by simp [hsn]⟩)]
      · -- mid-member with an empty window
        have hgz : s.how = GzHow.gzip := hgzip hPnil
        have hPlen : P.length ≠ 0 := by simpa using hPnil
        have hno2 : ¬(s.eof = true ∧ s.strmIn.length = 0) := by
          rintro ⟨h1, h2⟩
          have h3 : s.strmIn = [] := by simpa using h2
          rw [h3, heof h1] at hsplit
          exact hPnil hsplit.symm
        by_cases hsm : P.length + 1 < s.size * 2
        · -- small: fetch through the internal buffer, finishing the member
          obtain ⟨s1, hfeq, hrc', w1, w2, w3, w4, w5, w6, w7, w8, w9, w10⟩ :=
            gzFetch_gzip fuel s P
              ⟨hh1, hh2, hh3, hrem, hsplit, hfp0, hfpb, heof, herr, hsz⟩
              hPnil hgz (by omega)
          have hmin : min (s.size * 2) P.length = P.length := by omega
          rw [hmin, List.take_length] at w1
          rw [hmin, List.drop_length] at hrc'
          have hhow1 : s1.how = GzHow.look := by
            rw [w3, if_pos (by omega)]
          obtain ⟨s', heq, hpast⟩ := ih s1 [] P acc hrc' w1
            (by omega) (fun _ => hhow1) (fun h => absurd rfl h)
            (by rw [w4]; exact hsz2)
            (by simp only [List.length_nil, Nat.mul_zero, Nat.add_zero]; omega)
          simp only [List.length_nil, List.append_nil, Nat.add_zero] at heq
          refine ⟨s', ?_, hpast⟩
          simp only [gzReadLoop]
          rw [if_neg (show ¬(s.outWin.length ≠ 0) by simp [hWe])]
          rw [if_neg hno2]
          rw [if_pos (Or.inr (show min UINT_MAX (P.length + 1) < s.size * 2 by
            omega))]
          rw [hfeq]
          dsimp only
          rw [if_neg (show ¬((0 : Int) = -1) by decide)]
          exact heq
        · -- large: decompress directly into the caller's buffer
          obtain ⟨s1, hdeq, hrc', w1, w2, w3, w4, w5, w6, w7, w8, w9, w10⟩ :=
            gzDecomp_run (fuel + 1) s P (min UINT_MAX (P.length + 1))
              ⟨hh1, hh2, hh3, hrem, hsplit, hfp0, hfpb, heof, herr, hsz⟩
              hPnil (by simp [UINT_MAX]) (by omega)
          have hm1 : 1 ≤ min (min UINT_MAX (P.length + 1)) P.length := by
            have h1 : (1 : Nat) ≤ UINT_MAX := by simp [UINT_MAX]
            omega
          have hmP : min (min UINT_MAX (P.length + 1)) P.length ≤ P.length := by
            omega
          obtain ⟨s', heq, hpast⟩ := ih
            { s1 with
              outWin := [],
              pos := s1.pos +
                ((P.take (min (min UINT_MAX (P.length + 1)) P.length)).length : Int) }
            (P.drop (min (min UINT_MAX (P.length + 1)) P.length)) []
            (acc ++ P.take (min (min UINT_MAX (P.length + 1)) P.length))
            hrc' rfl (by simp [UINT_MAX])
            (fun hnil => by
              rw [w3, if_pos (by
                have := congrArg List.length hnil
                rw [List.length_drop, List.length_nil] at this
                omega)])
            (fun hnn => by
              have hlt : min (min UINT_MAX (P.length + 1)) P.length < P.length := by
                rcases Nat.lt_or_ge (min (min UINT_MAX (P.length + 1)) P.length)
                  P.length with h | h
                · exact h
                · exfalso
                  apply hnn
                  rw [List.drop_eq_nil_iff]
                  omega
              rw [w3, if_neg (by omega)]
              exact hgz)
            (by rw [w4]; exact hsz2)
            (by
              simp only [List.length_nil, Nat.zero_add, List.length_drop]
              omega)
          refine ⟨s', ?_, hpast⟩
          simp only [gzReadLoop]
          rw [if_neg (show ¬(s.outWin.length ≠ 0) by simp [hWe])]
          rw [if_neg hno2]
          rw [if_neg (show ¬(s.how = GzHow.look ∨
              min UINT_MAX (P.length + 1) < s.size * 2) by
            rintro (h1 | h2)
            · rw [hgz] at h1
              exact absurd h1 (by decide)
            · omega)]
          rw [if_neg (show ¬(s.how = GzHow.copy) by
            rw [hgz]
            decide)]
          rw [hdeq]
          dsimp only
          rw [if_neg (show ¬((0 : Int) = -1) by decide)]
          rw [if_pos (show P.length + 1 -
              (P.take (min (min UINT_MAX (P.length + 1)) P.length)).length ≠ 0 by
            rw [List.length_take]
            omega)]
          have hlen2 : P.length + 1 -
              (P.take (min (min UINT_MAX (P.length + 1)) P.length)).length =
              (P.drop (min (min UINT_MAX (P.length + 1)) P.length)).length + 1 := by
            rw [List.length_take, List.length_drop]
            omega
          rw [hlen2]
          simp only [List.length_nil, Nat.zero_add, List.append_nil] at heq
          rw [heq]
          have hbytes : acc ++ P.take (min (min UINT_MAX (P.length + 1)) P.length)
              ++ P.drop (min (min UINT_MAX (P.length + 1)) P.length) =
              acc ++ P := by
            rw [List.append_assoc, List.take_append_drop]
          rw [hbytes]
    · -- drain the published window first
      have hwl : W.length ≠ 0 := by simpa using hWnil
      have hwin : ¬(s.outWin.length = 0) := by
        rw [hW]
        simpa using hWnil
      obtain ⟨s', heq, hpast⟩ := ih
        { s with
          outWin := [], outStart := s.outStart + W.length,
          pos := s.pos + ((W.take W.length).length : Int) }
        P [] (acc ++ W.take W.length)
        ⟨hh1, hh2, hh3, hrem, hsplit, hfp0, hfpb, heof, herr, hsz⟩
        rfl (by simp [UINT_MAX]) hlook hgzip hsz2
        (by simp only [List.length_nil, Nat.zero_add]; omega)
      rw [List.take_length] at heq
      simp only [List.length_nil, Nat.zero_add] at heq
      refine ⟨s', ?_, hpast⟩
      simp only [gzReadLoop]
      rw [if_pos hwin]
      rw [hW]
      have hk : min (min UINT_MAX (W.length + P.length + 1)) W.length =
          W.length := by omega
      rw [hk]
      rw [List.take_length, List.drop_length]
      rw [if_pos (show W.length + P.length + 1 - W.length ≠ 0 by omega)]
      have hlen3 : W.length + P.length + 1 - W.length = P.length + 1 := by omega
      rw [hlen3]
      simp only [List.append_nil] at heq
      exact heq

/-- The 10-byte member prefix as produced by specEncode. -/
theorem specEncode_take_ten (S : List Nat) :
    (specEncode S).take 10 = 31 :: 139 :: leBytes 8 S.length := by
  have h8 : (leBytes 8 S.length).length = 8 := leBytes_length 8 S.length
  simp [specEncode]
  exact List.take_left' h8

/-- First inflate call of a member: the 10-byte prefix is consumed in the
same call that begins emitting payload, leaving a mid-member
configuration. -/
theorem iflate_first (S : List Nat) (j av : Nat)
    (hS : S.length < 256 ^ 8) (hj10 : 10 ≤ j) :
    iflate ⟨[], none⟩ ((specEncode S).take j) av =
      (⟨(specEncode S).take 10,
        some (S.length - min av (min (j - 10) S.length))⟩,
       10 + min av (min (j - 10) S.length),
       (S.take (j - 10)).take (min av (min (j - 10) S.length)),
       if S.length - min av (min (j - 10) S.length) = 0 then Z_STREAM_END
       else Z_OK) := by
  have h10 : ((specEncode S).take j).take 10 = (specEncode S).take 10 := by
    rw [List.take_take, min_eq_left hj10]
  have hlen10 : ((specEncode S).take 10).length = 10 := by
    rw [List.length_take, specEncode_length]
    omega
  have hrest : ((specEncode S).take j).drop 10 = S.take (j - 10) := by
    rw [List.drop_take, specEncode_drop_ten]
  have hg0 : ((specEncode S).take 10).getD 0 0 = 31 := by
    rw [specEncode_take_ten]
    rfl
  have hg1 : ((specEncode S).take 10).getD 1 0 = 139 := by
    rw [specEncode_take_ten]
    rfl
  have hrem : leVal (((specEncode S).take 10).drop 2) = S.length := by
    rw [specEncode_take_ten]
    show leVal (leBytes 8 S.length) = S.length
    exact leVal_leBytes 8 S.length hS
  rw [iflate]
  simp only [List.length_nil, Nat.sub_zero, h10, List.nil_append, hrest]
  rw [if_neg (by rw [hlen10]; decide)]
  rw [if_neg (by
    simp only [not_not]
    exact ⟨hg0, hg1⟩)]
  rw [hrem]
  have hrl : (S.take (j - 10)).length = min (j - 10) S.length := by
    rw [List.length_take]
  rw [hrl]
  have hmin2 : min (min (j - 10) S.length) S.length = min (j - 10) S.length := by
    omega
  rw [hmin2, hlen10]

/-- The gz_decomp loop on a fresh inflate state whose input window holds
the member prefix: the prefix is consumed and the loop behaves as from a
mid-member configuration on the whole payload. -/
theorem gzDecompLoop_first (fuel : Nat) (s : GzSt) (S : List Nat)
    (j av : Nat) (acc : List Nat) (ret : Int)
    (hS : S.length < 256 ^ 8)
    (hist : s.ist = ⟨[], none⟩)
    (hin : s.strmIn = (specEncode S).take j)
    (hcont : s.fd.content = specEncode S)
    (hfpos : s.fd.fpos = (j : Int))
    (hj10 : 10 ≤ j) (hjM : j ≤ (specEncode S).length)
    (heof : s.eof = true → (specEncode S).length ≤ j)
    (herr : s.err = Z_OK) (hsz : 0 < s.size) (hav : 0 < av)
    (hfuel : S.length + 2 ≤ fuel) :
    ∃ s', gzDecompLoop fuel s av acc ret =
        some (DecompRes.done s' (acc ++ S.take (min av S.length))
          (av - min av S.length)
          (if S.length ≤ av then Z_STREAM_END else Z_OK)) ∧
      RC s' (S.drop (min av S.length)) ∧
      s'.fd.content = s.fd.content ∧ s'.how = s.how ∧ s'.size = s.size ∧
      s'.pos = s.pos ∧ s'.past = s.past ∧ s'.outWin = s.outWin ∧
      s'.outStart = s.outStart ∧ s'.mode = s.mode ∧ s'.seek = s.seek := by
  obtain ⟨f, rfl⟩ : ∃ f, fuel = f + 1 := ⟨fuel - 1, by omega⟩
  have hM : (specEncode S).length = S.length + 10 := specEncode_length S
  have hXlen : s.strmIn.length = j := by
    rw [hin, List.length_take]
    omega
  have hXne : ¬s.strmIn.length = 0 := by omega
  have hlen10 : ((specEncode S).take 10).length = 10 := by
    rw [List.length_take]
    omega
  have hg0 : ((specEncode S).take 10).getD 0 0 = 31 := by
    rw [specEncode_take_ten]
    rfl
  have hg1 : ((specEncode S).take 10).getD 1 0 = 139 := by
    rw [specEncode_take_ten]
    rfl
  have hk1 : min av (min (j - 10) S.length) ≤ av := by omega
  have hk2 : min av (min (j - 10) S.length) ≤ j - 10 := by omega
  have hk3 : min av (min (j - 10) S.length) ≤ S.length := by omega
  have htn : ((j : Int)).toNat = j := by omega
  have hsplit2 : ((specEncode S).take j).drop
      (10 + min av (min (j - 10) S.length)) ++ (specEncode S).drop j =
      S.drop (min av (min (j - 10) S.length)) := by
    set k := min av (min (j - 10) S.length) with hkdef
    rw [List.drop_take]
    have e1 : (specEncode S).drop (10 + k) = S.drop k := by
      rw [← List.drop_drop, specEncode_drop_ten]
    have e2 : (specEncode S).drop j = S.drop (j - 10) := by
      conv_lhs => rw [show j = 10 + (j - 10) from by omega]
      rw [← List.drop_drop, specEncode_drop_ten]
    rw [e1, e2]
    rw [show j - 10 = k + (j - (10 + k)) from by omega]
    exact List.drop_take_append_drop S _ _
  have htake : (S.take (j - 10)).take (min av (min (j - 10) S.length)) =
      S.take (min av (min (j - 10) S.length)) := by
    rw [List.take_take, min_eq_left (by omega)]
  have hunfold : gzDecompLoop (f + 1) s av acc ret =
      if av - min av (min (j - 10) S.length) ≠ 0 ∧
          S.length - min av (min (j - 10) S.length) ≠ 0 then
        gzDecompLoop f
          { s with
            ist := ⟨(specEncode S).take 10,
              some (S.length - min av (min (j - 10) S.length))⟩,
            strmIn := ((specEncode S).take j).drop
              (10 + min av (min (j - 10) S.length)) }
          (av - min av (min (j - 10) S.length))
          (acc ++ (S.take (j - 10)).take (min av (min (j - 10) S.length)))
          (if S.length - min av (min (j - 10) S.length) = 0 then
            Z_STREAM_END else Z_OK)
      else
        some (DecompRes.done
          { s with
            ist := ⟨(specEncode S).take 10,
              some (S.length - min av (min (j - 10) S.length))⟩,
            strmIn := ((specEncode S).take j).drop
              (10 + min av (min (j - 10) S.length)) }
          (acc ++ (S.take (j - 10)).take (min av (min (j - 10) S.length)))
          (av - min av (min (j - 10) S.length))
          (if S.length - min av (min (j - 10) S.length) = 0 then
            Z_STREAM_END else Z_OK)) := by
    simp only [gzDecompLoop, hXne, ite_false, if_false]
    rw [if_neg (show ¬((0 : Int) = -1) by decide)]
    rw [hist, hin, iflate_first S j av hS hj10]
    rw [if_neg (show ¬((if S.length - min av (min (j - 10) S.length) = 0
        then Z_STREAM_END else Z_OK) = Z_STREAM_ERROR ∨
        (if S.length - min av (min (j - 10) S.length) = 0
        then Z_STREAM_END else Z_OK) = Z_NEED_DICT) by
      split_ifs <;> simp [Z_STREAM_END, Z_OK, Z_STREAM_ERROR, Z_NEED_DICT])]
    rw [if_neg (show ¬((if S.length - min av (min (j - 10) S.length) = 0
        then Z_STREAM_END else Z_OK) = Z_MEM_ERROR) by
      split_ifs <;> simp [Z_STREAM_END, Z_OK, Z_MEM_ERROR])]
    rw [if_neg (show ¬((if S.length - min av (min (j - 10) S.length) = 0
        then Z_STREAM_END else Z_OK) = Z_DATA_ERROR) by
      split_ifs <;> simp [Z_STREAM_END, Z_OK, Z_DATA_ERROR])]
    have hlt : ((S.take (j - 10)).take (min av (min (j - 10) S.length))).length =
        min av (min (j - 10) S.length) := by
      rw [List.length_take, List.length_take]
      omega
    dsimp only
    rw [hlt]
    rw [if_congr (and_congr_right fun _ => show
        ((if S.length - min av (min (j - 10) S.length) = 0 then Z_STREAM_END
          else Z_OK) ≠ Z_STREAM_END) ↔
        (S.length - min av (min (j - 10) S.length) ≠ 0) from by
      split_ifs with h
      · simp [h]
      · simp [h, Z_STREAM_END, Z_OK]) rfl rfl]
  have hrcmid : RC { s with
      ist := ⟨(specEncode S).take 10,
        some (S.length - min av (min (j - 10) S.length))⟩,
      strmIn := ((specEncode S).take j).drop
        (10 + min av (min (j - 10) S.length)) }
      (S.drop (min av (min (j - 10) S.length))) :=
    ⟨by simpa using hlen10, by simpa using hg0, by simpa using hg1,
      by simp [List.length_drop],
      by
        show ((specEncode S).take j).drop _ ++ fdRemaining _ = _
        rw [show fdRemaining { s with
            ist := (⟨(specEncode S).take 10,
              some (S.length - min av (min (j - 10) S.length))⟩ : InfSt),
            strmIn := ((specEncode S).take j).drop
              (10 + min av (min (j - 10) S.length)) } =
          s.fd.content.drop s.fd.fpos.toNat from rfl]
        rw [hcont, hfpos]
        rw [show ((j : Int)).toNat = j from by omega]
        exact hsplit2,
      by rw [hfpos]; omega,
      by
        show (s.fd.fpos).toNat ≤ s.fd.content.length
        rw [hfpos, hcont, htn]
        omega,
      fun hx => by
        show s.fd.content.drop s.fd.fpos.toNat = []
        rw [hcont, hfpos, htn]
        exact List.drop_eq_nil_of_le (by
          have := heof (by simpa using hx)
          omega),
      by simpa using herr, by simpa using hsz⟩
  by_cases hgo : av - min av (min (j - 10) S.length) ≠ 0 ∧
      S.length - min av (min (j - 10) S.length) ≠ 0
  · have hkj : min av (min (j - 10) S.length) = j - 10 := by omega
    rw [hunfold, if_pos hgo]
    rw [if_neg (show ¬(S.length - min av (min (j - 10) S.length) = 0) by omega)]
    have h2 := gzDecompLoop_run f
      { s with
        ist := ⟨(specEncode S).take 10,
          some (S.length - min av (min (j - 10) S.length))⟩,
        strmIn := ((specEncode S).take j).drop
          (10 + min av (min (j - 10) S.length)) }
      (S.drop (min av (min (j - 10) S.length)))
      (av - min av (min (j - 10) S.length))
      (acc ++ (S.take (j - 10)).take (min av (min (j - 10) S.length))) Z_OK
      hrcmid
      (by
        intro hx
        have := congrArg List.length hx
        rw [List.length_drop, List.length_nil] at this
        omega)
      (by omega)
      (by rw [List.length_drop]; omega)
    unfold DLRconc at h2
    obtain ⟨s', heq, hrc', hc1, hc2, hc3, hc4, hc5, hc6, hc7, hc8, hc9, hc10,
      hc11⟩ := h2
    have hm2 : min (av - min av (min (j - 10) S.length))
        ((S.drop (min av (min (j - 10) S.length))).length) =
        min av S.length - min av (min (j - 10) S.length) := by
      rw [List.length_drop]
      omega
    have hAA : av - min av (min (j - 10) S.length) -
        (min av S.length - min av (min (j - 10) S.length)) =
        av - min av S.length := by omega
    have hTT : S.take (min av (min (j - 10) S.length)) ++
        (S.drop (min av (min (j - 10) S.length))).take
          (min av S.length - min av (min (j - 10) S.length)) =
        S.take (min av S.length) := by
      conv_rhs => rw [show min av S.length =
        min av (min (j - 10) S.length) +
          (min av S.length - min av (min (j - 10) S.length)) from by omega]
      rw [List.take_add]
    have hDD : (S.drop (min av (min (j - 10) S.length))).drop
        (min av S.length - min av (min (j - 10) S.length)) =
        S.drop (min av S.length) := by
      rw [List.drop_drop]
      congr 1
      omega
    have hII : (if (S.drop (min av (min (j - 10) S.length))).length ≤
        av - min av (min (j - 10) S.length) then Z_STREAM_END else Z_OK) =
        (if S.length ≤ av then Z_STREAM_END else Z_OK) :=
      if_congr (by rw [List.length_drop]; omega) rfl rfl
    rw [hm2, hAA, hII, htake, List.append_assoc, hTT] at heq
    rw [hm2, hDD] at hrc'
    rw [htake]
    exact ⟨s', heq, hrc', by simpa using hc1, by simpa using hc2,
      by simpa using hc3, by simpa using hc4, by simpa using hc5,
      by simpa using hc6, by simpa using hc7, by simpa using hc8,
      by simpa using hc9⟩
  · rw [hunfold, if_neg hgo]
    have hkm : min av S.length = min av (min (j - 10) S.length) := by omega
    have hII2 : (if S.length - min av (min (j - 10) S.length) = 0 then
        Z_STREAM_END else Z_OK) =
        (if S.length ≤ av then Z_STREAM_END else Z_OK) :=
      if_congr (by omega) rfl rfl
    refine ⟨{ s with
        ist := ⟨(specEncode S).take 10,
          some (S.length - min av (min (j - 10) S.length))⟩,
        strmIn := ((specEncode S).take j).drop
          (10 + min av (min (j - 10) S.length)) },
      ?_, ?_, rfl, rfl, rfl, rfl, rfl, rfl, rfl, rfl, rfl⟩
    · rw [hII2, htake, hkm]
    · rw [hkm]
      exact hrcmid

/-- gz_decomp on a freshly sniffed member: the header is consumed and as
much payload as the output window allows is published as the output
window, returning to LOOK exactly when the member completed. -/
theorem gzDecomp_first (fuel : Nat) (s : GzSt) (S : List Nat) (j av : Nat)
    (hS : S.length < 256 ^ 8)
    (hist : s.ist = ⟨[], none⟩)
    (hin : s.strmIn = (specEncode S).take j)
    (hcont : s.fd.content = specEncode S)
    (hfpos : s.fd.fpos = (j : Int))
    (hj10 : 10 ≤ j) (hjM : j ≤ (specEncode S).length)
    (heof : s.eof = true → (specEncode S).length ≤ j)
    (herr : s.err = Z_OK) (hsz : 0 < s.size) (hav : 0 < av)
    (hfuel : S.length + 2 ≤ fuel) :
    ∃ s', gzDecomp fuel s av =
        some (s', S.take (min av S.length), 0,
          if S.length ≤ av then Z_STREAM_END else Z_OK) ∧
      RC s' (S.drop (min av S.length)) ∧
      s'.outWin = S.take (min av S.length) ∧ s'.outStart = 0 ∧
      s'.how = (if S.length ≤ av then GzHow.look else s.how) ∧
      s'.size = s.size ∧ s'.pos = s.pos ∧ s'.past = s.past ∧
      s'.mode = s.mode ∧ s'.seek = s.seek := by
  obtain ⟨s2, heq, hrc', hf1, hf2, hf3, hf4, hf5, hf6, hf7, hf8, hf9⟩ :=
    gzDecompLoop_first fuel s S j av [] Z_OK hS hist hin hcont hfpos hj10 hjM
      heof herr hsz hav hfuel
  rw [List.nil_append] at heq
  by_cases hend : S.length ≤ av
  · rw [if_pos hend] at heq ⊢
    refine ⟨{ s2 with
        outWin := S.take (min av S.length)
        outStart := 0
        how := GzHow.look }, ?_, ?_, rfl, rfl, by rw [if_pos hend],
      by simpa using hf3, by simpa using hf4, by simpa using hf5,
      by simpa using hf8, by simpa using hf9⟩
    · rw [gzDecomp, heq]
      simp [Z_STREAM_END]
    · obtain ⟨g1, g2, g3, g4, g5, g6, g7, g8, g9, g10⟩ := hrc'
      exact ⟨g1, g2, g3, g4, g5, g6, g7, g8, g9, by simpa using g10⟩
  · rw [if_neg hend] at heq ⊢
    refine ⟨{ s2 with
        outWin := S.take (min av S.length)
        outStart := 0 },
      ?_, ?_, rfl, rfl, by rw [if_neg hend]; simpa using hf2,
      by simpa using hf3, by simpa using hf4, by simpa using hf5,
      by simpa using hf8, by simpa using hf9⟩
    · rw [gzDecomp, heq]
      simp [Z_STREAM_END, Z_OK]
    · obtain ⟨g1, g2, g3, g4, g5, g6, g7, g8, g9, g10⟩ := hrc'
      exact ⟨g1, g2, g3, g4, g5, g6, g7, g8, g9, by simpa using g10⟩

/-- Any prefix of at least two bytes of an encoded member shows the gzip
magic. -/
theorem specEncode_take_magic (S : List Nat) (j : Nat) (hj : 2 ≤ j) :
    1 < ((specEncode S).take j).length ∧
    ((specEncode S).take j).getD 0 0 = 31 ∧
    ((specEncode S).take j).getD 1 0 = 139 := by
  obtain ⟨m, rfl⟩ : ∃ m, j = m + 2 := ⟨j - 2, by omega⟩
  have h2 : (specEncode S).take (m + 2) =
      31 :: 139 :: (leBytes 8 S.length ++ S).take m := rfl
  rw [h2]
  refine ⟨by simp, rfl, rfl⟩

/-- gz_fetch in GZIP mode right after the sniff, with the whole member on
the descriptor and its loaded prefix in the input window: one gz_decomp
pass consumes the header and fills the output window (or finishes the
member). -/
theorem gzFetch_gzip_first (fuel : Nat) (s : GzSt) (S : List Nat) (j : Nat)
    (hS : S.length < 256 ^ 8) (hSne : S ≠ [])
    (hhow : s.how = GzHow.gzip)
    (hist : s.ist = ⟨[], none⟩)
    (hin : s.strmIn = (specEncode S).take j)
    (hcont : s.fd.content = specEncode S)
    (hfpos : s.fd.fpos = (j : Int))
    (hj10 : 10 ≤ j) (hjM : j ≤ (specEncode S).length)
    (heof : s.eof = true → (specEncode S).length ≤ j)
    (herr : s.err = Z_OK) (hsz : 0 < s.size)
    (hfuel : S.length + 2 ≤ fuel) :
    ∃ s', gzFetch (fuel + 1) s = some (s', 0) ∧
      RC s' (S.drop (min (s.size * 2) S.length)) ∧
      s'.outWin = S.take (min (s.size * 2) S.length) ∧ s'.outStart = 0 ∧
      s'.how = (if S.length ≤ s.size * 2 then GzHow.look else GzHow.gzip) ∧
      s'.size = s.size ∧ s'.pos = s.pos ∧ s'.past = s.past ∧ s'.mode = s.mode ∧
      s'.seek = s.seek := by
  obtain ⟨s', heq, hrc', w1, w2, w3, w4, w5, w6, w7, w8⟩ :=
    gzDecomp_first (fuel + 1) s S j (s.size * 2) hS hist hin hcont hfpos hj10
      hjM heof herr hsz (by omega) (by omega)
  have hSlen : S.length ≠ 0 := by simpa using hSne
  have hne : ¬(s'.outWin.length = 0 ∧ (¬s'.eof = true ∨ s'.strmIn.length ≠ 0)) := by
    intro hx
    rw [w1, List.length_take] at hx
    have := hx.1
    omega
  refine ⟨s', ?_, hrc', w1, w2, by rw [w3, hhow], w4, w5, w6, w7, w8⟩
  simp only [gzFetch, hhow]
  rw [heq]
  dsimp only
  rw [if_neg (show ¬((0 : Int) = -1) by decide)]
  rw [if_neg hne]

/-- A gz_fetch step in LOOK mode whose lookahead switched format: the
fetch continues on the post-lookahead state when no output was produced
yet and input remains. -/
theorem gzFetch_look_cont (fuel : Nat) (s t : GzSt)
    (hhow : s.how = GzHow.look) (hlook : gzLook s = (t, 0))
    (hthow : ¬t.how = GzHow.look) (hout : t.outWin.length = 0)
    (htin : t.strmIn.length ≠ 0) :
    gzFetch (fuel + 1 + 1) s = gzFetch (fuel + 1) t := by
  conv_lhs => rw [gzFetch]
  rw [hhow]
  dsimp only
  rw [hlook]
  dsimp only
  rw [if_neg (show ¬((0 : Int) = -1) by decide)]
  rw [if_neg hthow]
  rw [if_pos (⟨hout, Or.inr htin⟩ :
    t.outWin.length = 0 ∧ (¬t.eof = true ∨ t.strmIn.length ≠ 0))]

/-- The sniffing gz_fetch, given that the lookahead produced the loaded
GZIP state: the header is consumed and the first window of payload is
published. -/
theorem gzFetch_sniff_from (f : Nat) (s : GzSt) (S : List Nat) (b : Bool)
    (hS : S.length < 256 ^ 8) (hSne : S ≠ [])
    (hhow : s.how = GzHow.look) (hw : 10 ≤ s.want) (hout : s.outWin = [])
    (herr : s.err = Z_OK)
    (hlook : gzLook s = (sniffLoaded s S b, 0))
    (heofb : b = true → (specEncode S).length ≤ s.want)
    (hfuel : S.length + 2 ≤ f) :
    ∃ s', gzFetch (f + 1 + 1) s = some (s', 0) ∧
      RC s' (S.drop (min (s.want * 2) S.length)) ∧
      s'.outWin = S.take (min (s.want * 2) S.length) ∧
      s'.how = (if S.length ≤ s.want * 2 then GzHow.look else GzHow.gzip) ∧
      s'.size = s.want ∧ s'.pos = s.pos ∧ s'.past = s.past ∧
      s'.mode = s.mode ∧ s'.seek = s.seek := by
  have hMlen : (specEncode S).length = S.length + 10 := specEncode_length S
  have hSlen : S.length ≠ 0 := by simpa using hSne
  have hstep := gzFetch_look_cont f s (sniffLoaded s S b) hhow hlook
    (by simp [sniffLoaded, sniffAvail])
    (by simp [sniffLoaded, sniffAvail, hout])
    (by simp only [sniffLoaded, sniffAvail, List.length_take]; omega)
  obtain ⟨s', heq2, hrc', w1, w2, w3, w4, w5, w6, w7, w8⟩ :=
    gzFetch_gzip_first f (sniffLoaded s S b) S
      (min s.want (specEncode S).length) hS hSne rfl rfl
      (take_min_length (specEncode S) s.want) rfl
      (by simp [sniffLoaded, sniffAvail, List.length_take])
      (by omega) (by omega)
      (by
        intro hx
        have hb : b = true := by simpa [sniffLoaded, sniffAvail] using hx
        have := heofb hb
        omega)
      herr (by simp [sniffLoaded, sniffAvail]; omega) hfuel
  have hts : (sniffLoaded s S b).size = s.want := rfl
  rw [hts] at hrc' w1 w3 w4
  exact ⟨s', hstep.trans heq2, hrc', w1, w3, w4, w5, w6, w7, w8⟩

/-- gz_fetch on a fresh read handle whose descriptor holds exactly one
encoded member: the lookahead allocates the buffers, loads the input
window, recognises the gzip magic and decodes the header plus the first
double-buffer window of payload. -/
theorem gzFetch_sniff (fuel : Nat) (s : GzSt) (S : List Nat)
    (hS : S.length < 256 ^ 8) (hSne : S ≠ [])
    (hhow : s.how = GzHow.look) (hsz0 : s.size = 0) (hw : 10 ≤ s.want)
    (hin : s.strmIn = []) (hout : s.outWin = [])
    (heof : s.eof = false) (herr : s.err = Z_OK)
    (hcont : s.fd.content = specEncode S) (hfpos : s.fd.fpos = 0)
    (hfuel : S.length + 3 ≤ fuel) :
    ∃ s', gzFetch (fuel + 1) s = some (s', 0) ∧
      RC s' (S.drop (min (s.want * 2) S.length)) ∧
      s'.outWin = S.take (min (s.want * 2) S.length) ∧
      s'.how = (if S.length ≤ s.want * 2 then GzHow.look else GzHow.gzip) ∧
      s'.size = s.want ∧ s'.pos = s.pos ∧ s'.past = s.past ∧
      s'.mode = s.mode ∧ s'.seek = s.seek := by
  obtain ⟨f, rfl⟩ : ∃ f, fuel = f + 1 := ⟨fuel - 1, by omega⟩
  have hMlen : (specEncode S).length = S.length + 10 := specEncode_length S
  have hSlen : S.length ≠ 0 := by simpa using hSne
  obtain ⟨hm1, hm2, hm3⟩ := specEncode_take_magic S s.want (by omega)
  have hlookOf : ∀ b : Bool,
      gzAvail { s with size := s.want, strmIn := [], ist := iReset } =
        (sniffAvail s S b, 0) →
      gzLook s = (sniffLoaded s S b, 0) := by
    intro b hav
    rw [gzLook]
    rw [if_pos hsz0]
    dsimp only [List.length_nil]
    rw [if_pos (show (0 : Nat) < 2 by decide)]
    rw [hav]
    dsimp only
    rw [if_neg (show ¬((0 : Int) = -1) by decide)]
    rw [if_neg (show ¬((sniffAvail s S b).strmIn.length = 0) by
      simp only [sniffAvail, List.length_take]; omega)]
    rw [gzLookMagic]
    rw [if_pos (⟨hm1, hm2, hm3⟩ :
      1 < (sniffAvail s S b).strmIn.length ∧
      (sniffAvail s S b).strmIn.getD 0 0 = 31 ∧
      (sniffAvail s S b).strmIn.getD 1 0 = 139)]
    rfl
  by_cases hshort : (specEncode S).length < s.want
  · have hav : gzAvail { s with size := s.want, strmIn := [], ist := iReset } =
        (sniffAvail s S true, 0) := by
      rw [gzAvail]
      dsimp only [List.length_nil, Nat.sub_zero]
      rw [if_neg (show ¬(s.err ≠ Z_OK ∧ s.err ≠ Z_BUF_ERROR) by
        simp [herr, Z_OK])]
      rw [if_pos heof]
      simp only [gzLoad, fdRead, List.length_nil, Nat.sub_zero]
      rw [hfpos, hcont]
      rw [if_pos (show (0 : Int) ≤ 0 by decide)]
      dsimp only [Int.toNat_zero, List.drop_zero]
      rw [if_pos (Or.inl (show ((specEncode S).take s.want).length < s.want by
        rw [List.length_take]; omega))]
      simp only [List.nil_append, zero_add]
      rfl
    exact gzFetch_sniff_from f s S true hS hSne hhow hw hout herr
      (hlookOf true hav) (fun _ => le_of_lt hshort) (by omega)
  · have hav : gzAvail { s with size := s.want, strmIn := [], ist := iReset } =
        (sniffAvail s S false, 0) := by
      rw [gzAvail]
      dsimp only [List.length_nil, Nat.sub_zero]
      rw [if_neg (show ¬(s.err ≠ Z_OK ∧ s.err ≠ Z_BUF_ERROR) by
        simp [herr, Z_OK])]
      rw [if_pos heof]
      simp only [gzLoad, fdRead, List.length_nil, Nat.sub_zero]
      rw [hfpos, hcont]
      rw [if_pos (show (0 : Int) ≤ 0 by decide)]
      dsimp only [Int.toNat_zero, List.drop_zero]
      rw [if_neg (show
        ¬(((specEncode S).take s.want).length < s.want ∨ s.want = 0) by
        rw [List.length_take]; omega)]
      rw [heof]
      simp only [List.nil_append, zero_add]
      rfl
    exact gzFetch_sniff_from f s S false hS hSne hhow hw hout herr
      (hlookOf false hav) (fun hx => nomatch hx) (by omega)

/-- C6: for every byte sequence S — including the empty sequence, one
byte, exactly one buffer's worth and several buffers' worth — writing S
through the writer pipeline followed by Close, then opening the resulting
stream for reading and reading to end of file, yields exactly S. The
modelled codec engine inverts its own encoding as the spec assumes; the
length bound reflects the 8-byte length field of the modelled member
format. -/
theorem C6_roundtrip (S : List Nat) (hS : S.length < 256 ^ 8) :
    writeReadRT S = some S := by
  by_cases hSe : S = []
  · subst hSe
    decide
  · have hSlen : S.length ≠ 0 := fun h => hSe (List.length_eq_zero.mp h)
    obtain ⟨w1, A, B, heqW, hAB, hdst, hsin, hwdir, hwsz, hwrt, hwno, hwop,
        hwseek, hwerr, hwmode, hwfd, hwpos, hweof, hwhow⟩ :=
      gzWrite_run (S.length + 2) (gzOpen GzMode.write "p" []) S hSe
        (by omega) rfl (by decide) rfl rfl rfl rfl (by decide)
    obtain ⟨w2, effs, heqC, hw2c⟩ :=
      gzcloseW_run (S.length + 32) w1 A B (hwmode.trans rfl) hwseek hdst hsin
        (by rw [hwsz]; decide) hwdir hwrt hwno hwop
        (by rw [hAB, specEncode_length]; omega)
    have hw2content : w2.fd.content = specEncode S := by
      rw [hw2c, hwfd, hAB]
      exact List.nil_append _
    have hw2v : (gzOpen GzMode.read "p" (specEncode S)).want * 2 = 16384 := rfl
    have hwv : (gzOpen GzMode.read "p" (specEncode S)).want = 8192 := rfl
    have r1 : (gzOpen GzMode.read "p" (specEncode S)).outWin = [] := rfl
    have r2 : (gzOpen GzMode.read "p" (specEncode S)).eof = false := rfl
    have r3 : (gzOpen GzMode.read "p" (specEncode S)).strmIn = [] := rfl
    have r4 : (gzOpen GzMode.read "p" (specEncode S)).how = GzHow.look := rfl
    have r5 : (gzOpen GzMode.read "p" (specEncode S)).seek = false := rfl
    obtain ⟨s1, hF, hrc1, hw1o, hhow1, hsz1, hpos1, hpast1, hmode1, hseek1⟩ :=
      gzFetch_sniff (3 * S.length + 63) (gzOpen GzMode.read "p" (specEncode S))
        S hS hSe r4 rfl (by rw [hwv]; decide) r3 r1 r2 rfl rfl rfl (by omega)
    rw [hw2v] at hrc1 hw1o hhow1
    rw [hwv] at hsz1
    have hU : UINT_MAX = 4294967295 := rfl
    obtain ⟨s2, hM, hpast2⟩ :=
      gzReadLoop_master (3 * S.length + 63) s1 (S.drop (min 16384 S.length))
        (S.take (min 16384 S.length)) [] hrc1 hw1o
        (by rw [List.length_take]; omega)
        (by
          intro h
          have h0 := congrArg List.length h
          rw [List.length_drop, List.length_nil] at h0
          rw [hhow1]
          rw [if_pos (by omega)])
        (by
          intro h
          rw [hhow1]
          rw [if_neg (show ¬(S.length ≤ 16384) from fun hle =>
            h (List.drop_eq_nil_of_le (by omega)))])
        (by rw [hsz1, hU]; omega)
        (by rw [List.length_take, List.length_drop]; omega)
    have hlen : (S.take (min 16384 S.length)).length +
        (S.drop (min 16384 S.length)).length + 1 = S.length + 1 := by
      rw [List.length_take, List.length_drop]
      omega
    have hbytes : ([] : List Nat) ++ S.take (min 16384 S.length) ++
        S.drop (min 16384 S.length) = S := by
      rw [List.nil_append, List.take_append_drop]
    rw [hlen, hbytes] at hM
    have hloop : gzReadLoop (3 * S.length + 63 + 1)
        (gzOpen GzMode.read "p" (specEncode S)) (S.length + 1) [] =
        some ⟨s2, S, S.length⟩ := by
      conv_lhs => rw [gzReadLoop]
      rw [if_neg (show
        ¬((gzOpen GzMode.read "p" (specEncode S)).outWin.length ≠ 0) by
        rw [r1]; decide)]
      rw [if_neg (show
        ¬((gzOpen GzMode.read "p" (specEncode S)).eof = true ∧
          (gzOpen GzMode.read "p" (specEncode S)).strmIn.length = 0) by
        rw [r2, r3]; decide)]
      rw [if_pos (show
        (gzOpen GzMode.read "p" (specEncode S)).how = GzHow.look ∨
          min UINT_MAX (S.length + 1) <
            (gzOpen GzMode.read "p" (specEncode S)).size * 2
        from Or.inl r4)]
      rw [hF]
      dsimp only
      rw [if_neg (show ¬((0 : Int) = -1) by decide)]
      exact hM
    have hinner : gzReadInner (3 * S.length + 64)
        (gzOpen GzMode.read "p" (specEncode S)) (S.length + 1) =
        some ⟨s2, S, S.length⟩ := by
      rw [gzReadInner]
      rw [if_neg (show ¬(S.length + 1 = 0) by omega)]
      rw [if_neg (show
        ¬((gzOpen GzMode.read "p" (specEncode S)).seek = true) by
        rw [r5]; decide)]
      rw [show 3 * S.length + 64 = 3 * S.length + 63 + 1 from by omega]
      exact hloop
    simp only [writeReadRT]
    rw [heqW]
    dsimp only
    rw [if_neg (show ¬(S.length ≠ S.length) by simp)]
    rw [heqC]
    dsimp only
    rw [if_neg (show ¬(Z_OK ≠ Z_OK) by simp)]
    rw [hw2content]
    rw [hinner]
    dsimp only
    rw [if_pos (rfl : S.length = S.length)]

/-- Witness for C6 at a concrete three-byte payload. -/
theorem C6_roundtrip_witness :
    ([1, 2, 3] : List Nat).length < 256 ^ 8 ∧
      writeReadRT [1, 2, 3] = some [1, 2, 3] :=
  ⟨by decide, C6_roundtrip [1, 2, 3] (by decide)⟩
end GzModel
